import Mathlib

/-! Verification of the kitsune HLS proxy's manifest rewriter, SSRF guard,
signed segment URLs and cache logic, shallowly embedded from the TypeScript
sources (src/app/api/m3u8/route.ts, the second m3u8 proxy route,
m3u8-proxy/src/routes/fetch.ts, src/app/api/episode/sources/route.ts).
JavaScript strings are modelled as lists of Unicode scalar characters. -/

set_option maxRecDepth 8000

namespace Kitsune

/-- JavaScript strings, modelled as lists of Unicode scalar characters. -/
abbrev Str := List Char

/-- Coerce a Lean string literal into the model. -/
def str (s : String) : Str := s.data

/-- Whitespace class removed by String.prototype.trim (the common members). -/
def isJsSpace (c : Char) : Bool :=
  c == ' ' || c == '\t' || c == '\n' || c == '\r' || c == '\x0b' || c == '\x0c'

/-- Remove leading JavaScript whitespace. -/
def trimLeftStr : Str → Str
  | [] => []
  | c :: r => if isJsSpace c then trimLeftStr r else c :: r

/-- Model of String.prototype.trim: strip whitespace from both ends. -/
def trimStr (s : Str) : Str :=
  trimLeftStr ((trimLeftStr s.reverse).reverse)

/-- Model of String.prototype.startsWith. -/
def startsWithStr (p s : Str) : Bool := p.isPrefixOf s

/-- Model of String.prototype.endsWith. -/
def endsWithStr (p s : Str) : Bool := p.isSuffixOf s

/-- Model of String.prototype.includes. -/
def includesStr (p s : Str) : Bool := s.tails.any fun t => startsWithStr p t

/-- Model of String.prototype.toLowerCase (ASCII case folding). -/
def toLowerStr (s : Str) : Str := s.map Char.toLower

/-- Number of newline characters in a string. -/
def countNl (s : Str) : Nat := s.count '\n'

/-- Model of JavaScript body.split with separator newline. -/
def splitOnNl : Str → List Str
  | [] => [[]]
  | c :: rest =>
    if c = '\n' then [] :: splitOnNl rest
    else
      match splitOnNl rest with
      | [] => [[c]]
      | h :: t => (c :: h) :: t

/-- Model of JavaScript lines.join with separator newline. -/
def joinNl : List Str → Str
  | [] => []
  | [p] => p
  | p :: rest => p ++ '\n' :: joinNl rest

theorem countNl_cons (c : Char) (s : Str) :
    countNl (c :: s) = countNl s + (if c = '\n' then 1 else 0) := by
  by_cases h : c = '\n'
  · subst h; simp [countNl, List.count_cons]
  · simp [countNl, List.count_cons, h, Ne.symm h]

theorem countNl_cons_eq_zero {c : Char} {s : Str} :
    countNl (c :: s) = 0 ↔ (c ≠ '\n' ∧ countNl s = 0) := by
  rw [countNl_cons]
  by_cases h : c = '\n' <;> simp [h]

theorem countNl_append (a b : Str) :
    countNl (a ++ b) = countNl a + countNl b := by
  simp [countNl, List.count_append]

theorem splitOnNl_ne_nil (s : Str) : splitOnNl s ≠ [] := by
  induction s with
  | nil => simp [splitOnNl]
  | cons c rest ih =>
    simp only [splitOnNl]
    split
    · simp
    · cases h : splitOnNl rest with
      | nil => simp
      | cons h2 t => simp

theorem splitOnNl_parts_nlFree (s : Str) :
    ∀ p ∈ splitOnNl s, countNl p = 0 := by
  induction s with
  | nil => intro p hp; simp [splitOnNl] at hp; simp [hp, countNl]
  | cons c rest ih =>
    intro p hp
    simp only [splitOnNl] at hp
    split at hp
    · rcases List.mem_cons.mp hp with h | h
      · simp [h, countNl]
      · exact ih p h
    · rename_i hc
      cases h : splitOnNl rest with
      | nil => exact absurd h (splitOnNl_ne_nil rest)
      | cons h2 t =>
        rw [h] at hp
        rcases List.mem_cons.mp hp with h3 | h3
        · subst h3
          have hh : countNl h2 = 0 := ih h2 (by rw [h]; exact List.mem_cons_self _ _)
          exact countNl_cons_eq_zero.mpr ⟨hc, hh⟩
        · exact ih p (by rw [h]; exact List.mem_cons_of_mem _ h3)

theorem splitOnNl_append_nl (p ys : Str) (hp : countNl p = 0) :
    splitOnNl (p ++ '\n' :: ys) = p :: splitOnNl ys := by
  induction p with
  | nil => simp [splitOnNl]
  | cons c rest ih =>
    obtain ⟨hc, hrest⟩ := countNl_cons_eq_zero.mp hp
    rw [List.cons_append]
    simp only [splitOnNl, if_neg hc]
    rw [ih hrest]

theorem splitOnNl_self_of_nlFree (p : Str) (hp : countNl p = 0) :
    splitOnNl p = [p] := by
  induction p with
  | nil => simp [splitOnNl]
  | cons c rest ih =>
    obtain ⟨hc, hrest⟩ := countNl_cons_eq_zero.mp hp
    simp only [splitOnNl, if_neg hc]
    rw [ih hrest]

theorem splitOnNl_joinNl (parts : List Str) (hne : parts ≠ [])
    (hfree : ∀ p ∈ parts, countNl p = 0) :
    splitOnNl (joinNl parts) = parts := by
  induction parts with
  | nil => exact absurd rfl hne
  | cons p rest ih =>
    cases rest with
    | nil =>
      simp only [joinNl]
      exact splitOnNl_self_of_nlFree p (hfree p (List.mem_cons_self _ _))
    | cons q rest2 =>
      have hp : countNl p = 0 := hfree p (List.mem_cons_self _ _)
      simp only [joinNl]
      rw [splitOnNl_append_nl p _ hp]
      congr 1
      exact ih (List.cons_ne_nil _ _)
        (fun r hr => hfree r (List.mem_cons_of_mem _ hr))

theorem length_splitOnNl (s : Str) :
    (splitOnNl s).length = countNl s + 1 := by
  induction s with
  | nil => simp [splitOnNl, countNl]
  | cons c rest ih =>
    simp only [splitOnNl]
    split
    · rename_i hc
      simp only [List.length_cons, ih, countNl_cons, if_pos hc]
    · rename_i hc
      cases h : splitOnNl rest with
      | nil => exact absurd h (splitOnNl_ne_nil rest)
      | cons h2 t =>
        rw [h] at ih
        simp only [List.length_cons] at ih ⊢
        rw [ih, countNl_cons, if_neg hc]

/-- Uppercase hexadecimal digit for a value below 16, as emitted by
encodeURIComponent's percent escapes. -/
def hexChar (n : Nat) : Char :=
  if n < 10 then Char.ofNat (48 + n) else Char.ofNat (55 + n)

/-- Value of a hexadecimal digit character (both cases), none otherwise. -/
def hexVal (c : Char) : Option Nat :=
  let n := c.toNat
  if 48 ≤ n ∧ n ≤ 57 then some (n - 48)
  else if 65 ≤ n ∧ n ≤ 70 then some (n - 55)
  else if 97 ≤ n ∧ n ≤ 102 then some (n - 87)
  else none

/-- UTF-8 byte sequence of a Unicode code point. -/
def utf8Bytes (n : Nat) : List Nat :=
  if n < 0x80 then [n]
  else if n < 0x800 then [0xC0 + n / 64, 0x80 + n % 64]
  else if n < 0x10000 then [0xE0 + n / 4096, 0x80 + n / 64 % 64, 0x80 + n % 64]
  else [0xF0 + n / 262144, 0x80 + n / 4096 % 64, 0x80 + n / 64 % 64, 0x80 + n % 64]

/-- Characters encodeURIComponent leaves unescaped:
letters, digits, and - _ . ! ~ * apostrophe ( ). -/
def isUnreservedURI (c : Char) : Bool :=
  let n := c.toNat
  (65 ≤ n && n ≤ 90) || (97 ≤ n && n ≤ 122) || (48 ≤ n && n ≤ 57) ||
    n == 45 || n == 95 || n == 46 || n == 33 || n == 126 || n == 42 ||
    n == 39 || n == 40 || n == 41

/-- Percent escape of one byte. -/
def pctByte (b : Nat) : Str := ['%', hexChar (b / 16), hexChar (b % 16)]

/-- Percent escapes of a byte sequence. -/
def pctBytes (bs : List Nat) : Str := (bs.map pctByte).flatten

/-- Encoding of a single character by encodeURIComponent. -/
def encodeChar (c : Char) : Str :=
  if isUnreservedURI c then [c] else pctBytes (utf8Bytes c.toNat)

/-- Model of JavaScript encodeURIComponent. -/
def encodeURIComponent (s : Str) : Str := (s.map encodeChar).flatten

/-- First pass of decodeURIComponent: turn the text into a byte sequence,
reading each percent escape as one byte and any other character as its
UTF-8 bytes; none models the URIError on a malformed escape. -/
def percentBytes : Str → Option (List Nat)
  | [] => some []
  | c :: rest =>
    if c = '%' then
      match rest with
      | h1 :: h2 :: rest2 => do
        let v1 ← hexVal h1
        let v2 ← hexVal h2
        let bs ← percentBytes rest2
        some ((16 * v1 + v2) :: bs)
      | _ => none
    else (utf8Bytes c.toNat ++ ·) <$> percentBytes rest

/-- Value of a UTF-8 continuation byte, none when the byte is not one. -/
def contVal (b : Nat) : Option Nat :=
  if 0x80 ≤ b ∧ b < 0xC0 then some (b - 0x80) else none

/-- Decode one UTF-8 scalar from the front of a byte sequence, returning the
character and the remaining bytes; none on a malformed sequence. -/
def decodeStep : List Nat → Option (Char × List Nat)
  | [] => none
  | b :: rest =>
    if b < 0x80 then some (Char.ofNat b, rest)
    else if b < 0xC0 then none
    else if b < 0xE0 then
      match rest with
      | b2 :: rest2 =>
        match contVal b2 with
        | some v2 =>
          let n := (b - 0xC0) * 64 + v2
          if 0x80 ≤ n then some (Char.ofNat n, rest2) else none
        | none => none
      | [] => none
    else if b < 0xF0 then
      match rest with
      | b2 :: b3 :: rest3 =>
        match contVal b2, contVal b3 with
        | some v2, some v3 =>
          let n := (b - 0xE0) * 4096 + v2 * 64 + v3
          if 0x800 ≤ n ∧ ¬ (0xD800 ≤ n ∧ n ≤ 0xDFFF) then
            some (Char.ofNat n, rest3)
          else none
        | _, _ => none
      | _ => none
    else if b < 0xF8 then
      match rest with
      | b2 :: b3 :: b4 :: rest4 =>
        match contVal b2, contVal b3, contVal b4 with
        | some v2, some v3, some v4 =>
          let n := (b - 0xF0) * 262144 + v2 * 4096 + v3 * 64 + v4
          if 0x10000 ≤ n ∧ n < 0x110000 then
            some (Char.ofNat n, rest4)
          else none
        | _, _, _ => none
      | _ => none
    else none

/-- Fuel-driven UTF-8 decoding loop; the fuel bounds the number of decoded
characters and the byte length is always enough fuel. -/
def utf8DecodeGo : Nat → List Nat → Option Str
  | _, [] => some []
  | 0, _ :: _ => none
  | fuel + 1, b :: rest => do
    let p ← decodeStep (b :: rest)
    let s ← utf8DecodeGo fuel p.2
    some (p.1 :: s)

/-- Second pass of decodeURIComponent: decode a byte sequence as UTF-8;
none models the URIError on a malformed sequence. -/
def utf8DecodeBytes (bs : List Nat) : Option Str :=
  utf8DecodeGo bs.length bs

/-- Model of JavaScript decodeURIComponent; none models a thrown URIError. -/
def decodeURIComponent (s : Str) : Option Str :=
  (percentBytes s).bind utf8DecodeBytes

theorem hexVal_hexChar (n : Nat) (h : n < 16) : hexVal (hexChar n) = some n := by
  interval_cases n <;> decide

theorem percentBytes_pctByte (b : Nat) (hb : b < 256) (s : Str) :
    percentBytes (pctByte b ++ s) = (b :: ·) <$> percentBytes s := by
  have h1 : b / 16 < 16 := by omega
  have h2 : b % 16 < 16 := by omega
  have hval : 16 * (b / 16) + b % 16 = b := by omega
  show percentBytes ('%' :: hexChar (b / 16) :: hexChar (b % 16) :: s) = _
  simp only [percentBytes, if_pos rfl, hexVal_hexChar _ h1, hexVal_hexChar _ h2,
    Option.bind_eq_bind, Option.some_bind, hval]
  cases percentBytes s <;> rfl

theorem percentBytes_pctBytes (bs : List Nat) (hbs : ∀ b ∈ bs, b < 256) (s : Str) :
    percentBytes (pctBytes bs ++ s) = (bs ++ ·) <$> percentBytes s := by
  induction bs with
  | nil =>
    show percentBytes s = _
    cases percentBytes s <;> rfl
  | cons b rest ih =>
    have hb : b < 256 := hbs b (List.mem_cons_self _ _)
    have hrest : ∀ x ∈ rest, x < 256 := fun x hx => hbs x (List.mem_cons_of_mem _ hx)
    have hassoc : pctBytes (b :: rest) ++ s = pctByte b ++ (pctBytes rest ++ s) := by
      simp [pctBytes, List.append_assoc]
    rw [hassoc, percentBytes_pctByte b hb, ih hrest]
    cases percentBytes s <;> rfl

theorem utf8Bytes_lt (n : Nat) (hn : n < 0x110000) :
    ∀ b ∈ utf8Bytes n, b < 256 := by
  intro b hb
  simp only [utf8Bytes] at hb
  split at hb
  · simp at hb; omega
  · split at hb
    · simp at hb; rcases hb with h | h <;> omega
    · split at hb
      · simp at hb; rcases hb with h | h | h <;> omega
      · simp at hb; rcases hb with h | h | h | h <;> omega

theorem percentBytes_cons_nonpct (c : Char) (hc : c ≠ '%') (t : Str) :
    percentBytes (c :: t) = (utf8Bytes c.toNat ++ ·) <$> percentBytes t := by
  match t with
  | [] => simp only [percentBytes, if_neg hc]
  | [x] => simp only [percentBytes, if_neg hc]
  | h1 :: h2 :: r => simp only [percentBytes, if_neg hc]

theorem utf8Bytes_ne_nil (n : Nat) : utf8Bytes n ≠ [] := by
  simp only [utf8Bytes]
  split
  · simp
  · split
    · simp
    · split <;> simp

theorem decodeStep_utf8Bytes (n : Nat) (hv : Nat.isValidChar n) (bs : List Nat) :
    decodeStep (utf8Bytes n ++ bs) = some (Char.ofNat n, bs) := by
  have hn : n < 0x110000 := by
    rcases hv with h | h
    · omega
    · omega
  by_cases h1 : n < 0x80
  · have hb : utf8Bytes n = [n] := by simp only [utf8Bytes]; rw [if_pos h1]
    rw [hb, List.cons_append, List.nil_append]
    simp only [decodeStep]
    rw [if_pos h1]
  · by_cases h2 : n < 0x800
    · have hb : utf8Bytes n = [0xC0 + n / 64, 0x80 + n % 64] := by
        simp only [utf8Bytes]
        rw [if_neg h1, if_pos h2]
      rw [hb]
      simp only [List.cons_append, List.nil_append, decodeStep]
      rw [if_neg (by omega), if_neg (by omega), if_pos (by omega)]
      have hcv : contVal (0x80 + n % 64) = some (n % 64) := by
        simp only [contVal]
        rw [if_pos (by omega)]
        congr 1
        omega
      rw [hcv]
      have harith : (0xC0 + n / 64 - 0xC0) * 64 + n % 64 = n := by omega
      simp only [harith]
      rw [if_pos (by omega)]
    · by_cases h3 : n < 0x10000
      · have hb : utf8Bytes n = [0xE0 + n / 4096, 0x80 + n / 64 % 64, 0x80 + n % 64] := by
          simp only [utf8Bytes]
          rw [if_neg h1, if_neg h2, if_pos h3]
        rw [hb]
        simp only [List.cons_append, List.nil_append, decodeStep]
        rw [if_neg (by omega), if_neg (by omega), if_neg (by omega), if_pos (by omega)]
        have hcv2 : contVal (0x80 + n / 64 % 64) = some (n / 64 % 64) := by
          simp only [contVal]
          rw [if_pos (by omega)]
          congr 1
          omega
        have hcv3 : contVal (0x80 + n % 64) = some (n % 64) := by
          simp only [contVal]
          rw [if_pos (by omega)]
          congr 1
          omega
        rw [hcv2, hcv3]
        have harith : (0xE0 + n / 4096 - 0xE0) * 4096 + n / 64 % 64 * 64 + n % 64 = n := by
          omega
        simp only [harith]
        have hsur : ¬ (0xD800 ≤ n ∧ n ≤ 0xDFFF) := by
          rcases hv with h | h
          · omega
          · omega
        rw [if_pos (by exact ⟨by omega, hsur⟩)]
      · have hb : utf8Bytes n =
            [0xF0 + n / 262144, 0x80 + n / 4096 % 64, 0x80 + n / 64 % 64, 0x80 + n % 64] := by
          simp only [utf8Bytes]
          rw [if_neg h1, if_neg h2, if_neg h3]
        rw [hb]
        simp only [List.cons_append, List.nil_append, decodeStep]
        rw [if_neg (by omega), if_neg (by omega), if_neg (by omega),
          if_neg (by omega), if_pos (by omega)]
        have hcv2 : contVal (0x80 + n / 4096 % 64) = some (n / 4096 % 64) := by
          simp only [contVal]
          rw [if_pos (by omega)]
          congr 1
          omega
        have hcv3 : contVal (0x80 + n / 64 % 64) = some (n / 64 % 64) := by
          simp only [contVal]
          rw [if_pos (by omega)]
          congr 1
          omega
        have hcv4 : contVal (0x80 + n % 64) = some (n % 64) := by
          simp only [contVal]
          rw [if_pos (by omega)]
          congr 1
          omega
        rw [hcv2, hcv3, hcv4]
        have harith :
            (0xF0 + n / 262144 - 0xF0) * 262144 + n / 4096 % 64 * 4096 +
              n / 64 % 64 * 64 + n % 64 = n := by
          omega
        simp only [harith]
        rw [if_pos (by exact ⟨by omega, hn⟩)]

theorem utf8DecodeGo_nil (fuel : Nat) : utf8DecodeGo fuel [] = some [] := by
  cases fuel <;> rfl

theorem utf8DecodeGo_succ (f : Nat) (l : List Nat) (hl : l ≠ []) :
    utf8DecodeGo (f + 1) l = (do
      let p ← decodeStep l
      let s ← utf8DecodeGo f p.2
      some (p.1 :: s)) := by
  cases l with
  | nil => exact absurd rfl hl
  | cons b rest => rfl

/-- Concatenated UTF-8 bytes of a string, the normal form percentBytes
produces on encodeURIComponent output. -/
def codePointBytes (s : Str) : List Nat :=
  (s.map (fun c => utf8Bytes c.toNat)).flatten

theorem char_valid_nat (c : Char) : Nat.isValidChar c.toNat := c.valid

theorem char_toNat_lt (c : Char) : c.toNat < 0x110000 := by
  rcases char_valid_nat c with h | h
  · omega
  · omega

theorem isUnreservedURI_ne_pct {c : Char} (h : isUnreservedURI c = true) : c ≠ '%' := by
  intro hEq
  subst hEq
  simp [isUnreservedURI] at h

theorem percentBytes_encode (s : Str) :
    percentBytes (encodeURIComponent s) = some (codePointBytes s) := by
  induction s with
  | nil => rfl
  | cons c rest ih =>
    have hsplit : encodeURIComponent (c :: rest) = encodeChar c ++ encodeURIComponent rest := by
      simp [encodeURIComponent]
    rw [hsplit]
    by_cases hu : isUnreservedURI c
    · have he : encodeChar c = [c] := by simp [encodeChar, hu]
      rw [he, List.cons_append, List.nil_append,
        percentBytes_cons_nonpct c (isUnreservedURI_ne_pct hu), ih]
      simp [codePointBytes]
    · have he : encodeChar c = pctBytes (utf8Bytes c.toNat) := by simp [encodeChar, hu]
      rw [he, percentBytes_pctBytes _ (utf8Bytes_lt _ (char_toNat_lt c)), ih]
      simp [codePointBytes]

theorem utf8DecodeGo_codePointBytes (s : Str) :
    ∀ fuel, s.length ≤ fuel → utf8DecodeGo fuel (codePointBytes s) = some s := by
  induction s with
  | nil => intro fuel h; simp [codePointBytes, utf8DecodeGo_nil]
  | cons c rest ih =>
    intro fuel h
    cases fuel with
    | zero => simp at h
    | succ f =>
      have hsplit : codePointBytes (c :: rest) = utf8Bytes c.toNat ++ codePointBytes rest := by
        simp [codePointBytes]
      have hne : utf8Bytes c.toNat ++ codePointBytes rest ≠ [] := by
        intro hEq
        exact utf8Bytes_ne_nil _ (List.append_eq_nil.mp hEq).1
      rw [hsplit, utf8DecodeGo_succ f _ hne,
        decodeStep_utf8Bytes _ (char_valid_nat c), Char.ofNat_toNat]
      have hle : rest.length ≤ f := by
        simp only [List.length_cons] at h
        omega
      simp [ih f hle]

theorem length_codePointBytes (s : Str) :
    s.length ≤ (codePointBytes s).length := by
  induction s with
  | nil => simp [codePointBytes]
  | cons c rest ih =>
    have h1 : 0 < (utf8Bytes c.toNat).length :=
      List.length_pos.mpr (utf8Bytes_ne_nil _)
    have h2 : (codePointBytes (c :: rest)).length =
        (utf8Bytes c.toNat).length + (codePointBytes rest).length := by
      simp [codePointBytes]
    simp only [List.length_cons, h2]
    omega

theorem utf8DecodeBytes_codePointBytes (s : Str) :
    utf8DecodeBytes (codePointBytes s) = some s :=
  utf8DecodeGo_codePointBytes s _ (length_codePointBytes s)

/-- decodeURIComponent inverts encodeURIComponent on every string. -/
theorem decode_encode (s : Str) :
    decodeURIComponent (encodeURIComponent s) = some s := by
  simp [decodeURIComponent, percentBytes_encode, utf8DecodeBytes_codePointBytes]

theorem countNl_hexChar (m : Nat) (hm : m < 16) : hexChar m ≠ '\n' := by
  interval_cases m <;> decide

theorem countNl_pctByte (b : Nat) (hb : b < 256) : countNl (pctByte b) = 0 := by
  have h1 : b / 16 < 16 := by omega
  have h2 : b % 16 < 16 := by omega
  simp [pctByte, countNl, List.count_cons, countNl_hexChar _ h1, countNl_hexChar _ h2,
    (by decide : ('%' : Char) ≠ '\n')]

theorem countNl_pctBytes (bs : List Nat) (hbs : ∀ b ∈ bs, b < 256) :
    countNl (pctBytes bs) = 0 := by
  induction bs with
  | nil => rfl
  | cons b rest ih =>
    have : pctBytes (b :: rest) = pctByte b ++ pctBytes rest := by simp [pctBytes]
    rw [this, countNl_append, countNl_pctByte b (hbs b (List.mem_cons_self _ _)),
      ih (fun x hx => hbs x (List.mem_cons_of_mem _ hx))]

theorem isUnreservedURI_ne_nl {c : Char} (h : isUnreservedURI c = true) : c ≠ '\n' := by
  intro hEq
  subst hEq
  simp [isUnreservedURI] at h

theorem countNl_encodeChar (c : Char) : countNl (encodeChar c) = 0 := by
  by_cases hu : isUnreservedURI c
  · simp [encodeChar, hu, countNl, List.count_cons, isUnreservedURI_ne_nl hu]
  · simp only [encodeChar, hu, if_false, Bool.false_eq_true]
    exact countNl_pctBytes _ (utf8Bytes_lt _ (char_toNat_lt c))

theorem countNl_encodeURIComponent (s : Str) : countNl (encodeURIComponent s) = 0 := by
  induction s with
  | nil => rfl
  | cons c rest ih =>
    have : encodeURIComponent (c :: rest) = encodeChar c ++ encodeURIComponent rest := by
      simp [encodeURIComponent]
    rw [this, countNl_append, countNl_encodeChar, ih]

/-! URL model: a parsed WHATWG URL as the JavaScript code observes it
(scheme, lowercased host, dot-normalized path, query), with href
serialization and relative resolution as performed by `new URL`. -/

/-- Parsed http(s) URL record matching the fields the code reads:
protocol is scheme plus a colon, pathname is path, search is query. -/
structure JsUrl where
  scheme : Str
  host : Str
  path : Str
  query : Str
deriving DecidableEq

/-- Serialization, as URL.prototype.href / toString. -/
def hrefStr (u : JsUrl) : Str :=
  u.scheme ++ str "://" ++ u.host ++ u.path ++ u.query

/-- Model of URL.prototype.origin: scheme plus host. -/
def originStr (u : JsUrl) : Str :=
  u.scheme ++ str "://" ++ u.host

/-- Split a string on a separator character. -/
def splitOnCh (sep : Char) : Str → List Str
  | [] => [[]]
  | c :: rest =>
    if c = sep then [] :: splitOnCh sep rest
    else
      match splitOnCh sep rest with
      | [] => [[c]]
      | h :: t => (c :: h) :: t

/-- Join with a separator character. -/
def joinCh (sep : Char) : List Str → Str
  | [] => []
  | [p] => p
  | p :: rest => p ++ sep :: joinCh sep rest

/-- One step of WHATWG dot-segment removal over an output stack. -/
def dotStep (out : List Str) (seg : Str) (isLast : Bool) : List Str :=
  if seg = str "." then
    if isLast then [] :: out else out
  else if seg = str ".." then
    let out2 := out.drop 1
    if isLast then [] :: out2 else out2
  else seg :: out

/-- WHATWG dot-segment removal over the segment list. -/
def dotGo : List Str → List Str → List Str
  | out, [] => out
  | out, [seg] => dotStep out seg true
  | out, seg :: rest => dotGo (dotStep out seg false) rest

/-- Normalize an absolute path by removing "." and ".." segments as the
WHATWG URL parser does. -/
def removeDotSegments (p : Str) : Str :=
  match splitOnCh '/' p with
  | [] => p
  | _ :: segs => '/' :: joinCh '/' (dotGo [] segs).reverse

/-- Whether an authority string is a valid host for the model: nonempty, and
a bracketed IPv6 literal must open with the bracket and close with one. -/
def hostOk (a : Str) : Bool :=
  a ≠ [] &&
    (!(a.contains '[' || a.contains ']') ||
      (a.head? = some '[' && a.getLast? = some ']' && a.length ≥ 3))

/-- Split the post-authority tail into normalized path and query, dropping
any fragment, as the WHATWG parser does for special schemes. -/
def parsePathQuery (tail : Str) : Str × Str :=
  let noFrag := tail.takeWhile (· ≠ '#')
  if noFrag = [] then (str "/", [])
  else if noFrag.head? = some '?' then (str "/", noFrag)
  else
    let rawPath := noFrag.takeWhile (· ≠ '?')
    (removeDotSegments rawPath, noFrag.drop rawPath.length)

/-- Parse an absolute http(s) URL; none models the TypeError thrown by
`new URL` on invalid input (no http(s) scheme, or a bad host such as an
unclosed bracketed IPv6 literal). -/
def parseAbsUrl (s : Str) : Option JsUrl :=
  let headOf : Option (Str × Nat) :=
    if toLowerStr (s.take 7) = str "http://" then some (str "http", 7)
    else if toLowerStr (s.take 8) = str "https://" then some (str "https", 8)
    else none
  match headOf with
  | none => none
  | some (sch, len) =>
    let rest := s.drop len
    let authority := rest.takeWhile fun c => c ≠ '/' && c ≠ '?' && c ≠ '#'
    if hostOk authority then
      let pq := parsePathQuery (rest.drop authority.length)
      some { scheme := sch, host := toLowerStr authority, path := pq.1, query := pq.2 }
    else none

/-- Directory part of a path: everything up to and including the last slash. -/
def dirOf (p : Str) : Str :=
  (p.reverse.dropWhile (· ≠ '/')).reverse

/-- Base URL reduced to its origin, the parse of originStr: path slash,
empty query. -/
def originUrl (u : JsUrl) : JsUrl :=
  { u with path := str "/", query := [] }

/-- Model of `new URL(input, base)` for the shapes the code exercises:
absolute http(s), protocol-relative, root-relative, query-only and
path-relative references; none models the thrown TypeError. -/
def jsResolve (input : Str) (base : JsUrl) : Option JsUrl :=
  match parseAbsUrl input with
  | some u => some u
  | none =>
    if toLowerStr (input.take 5) = str "http:" ∨ toLowerStr (input.take 6) = str "https:" then
      none
    else if startsWithStr (str "//") input then
      parseAbsUrl (base.scheme ++ ':' :: input)
    else if startsWithStr (str "/") input then
      let pq := parsePathQuery input
      some { base with path := pq.1, query := pq.2 }
    else
      let noFrag := input.takeWhile (· ≠ '#')
      let relPath := noFrag.takeWhile (· ≠ '?')
      let q := noFrag.drop relPath.length
      if relPath = [] then
        some { base with query := if noFrag = [] then base.query else q }
      else
        some { base with path := removeDotSegments (dirOf base.path ++ relPath), query := q }

/-! Embedding of rewriteM3U8 (second m3u8 proxy route), rewritePlaylist
(src/app/api/m3u8/route.ts) and rewriteVTT, per line of the source. -/

/-- Proxy URL built by the rewriter for an already-encoded URL value. -/
def proxyLine (encoded refEncoded : Str) : Str :=
  str "/api/m3u8?url=" ++ encoded ++ str "&ref=" ++ refEncoded

/-- Per-line body of rewriteM3U8's map callback, translated branch for
branch from the source: comments and blanks unchanged; absolute http(s)
lines encoded verbatim; protocol-relative, root-relative and relative
lines resolved with `new URL` and encoded; on a resolution failure, and
for lines carrying a non-http scheme, the line is returned unchanged. -/
def rewriteM3U8Line (targetUrl : JsUrl) (refEncoded : Str) (line : Str) : Str :=
  let trimmed := trimStr line
  if trimmed = [] then line
  else if startsWithStr (str "#") trimmed then line
  else if startsWithStr (str "http://") trimmed || startsWithStr (str "https://") trimmed then
    proxyLine (encodeURIComponent trimmed) refEncoded
  else if startsWithStr (str "//") trimmed then
    match parseAbsUrl (targetUrl.scheme ++ ':' :: trimmed) with
    | some u => proxyLine (encodeURIComponent (hrefStr u)) refEncoded
    | none => line
  else if startsWithStr (str "/") trimmed then
    match jsResolve trimmed (originUrl targetUrl) with
    | some u => proxyLine (encodeURIComponent (hrefStr u)) refEncoded
    | none => line
  else if !includesStr (str "://") trimmed && !startsWithStr (str "#") trimmed then
    match jsResolve trimmed targetUrl with
    | some u => proxyLine (encodeURIComponent (hrefStr u)) refEncoded
    | none => line
  else line

/-- rewriteM3U8: split the body on newlines, map the per-line rewrite,
join with newlines. -/
def rewriteM3U8 (body : Str) (targetUrl : JsUrl) (refEncoded : Str) : Str :=
  joinNl ((splitOnNl body).map (rewriteM3U8Line targetUrl refEncoded))

/-- Per-line body of rewritePlaylist's map callback (first m3u8 route):
comments and blanks unchanged, any other line resolved against the playlist
URL and proxied, or returned unchanged when `new URL` throws. -/
def rewritePlaylistLine (baseUrl : JsUrl) (referer : Option Str) (line : Str) : Str :=
  let trimmed := trimStr line
  if trimmed = [] then line
  else if startsWithStr (str "#") trimmed then line
  else
    match jsResolve trimmed baseUrl with
    | some u =>
      let refParam :=
        match referer with
        | some r => str "&ref=" ++ encodeURIComponent r
        | none => []
      str "/api/m3u8?url=" ++ encodeURIComponent (hrefStr u) ++ refParam
    | none => line

/-- Prepend a character onto the first line of a split result. -/
def consLine (c : Char) : List Str → List Str
  | [] => [[c]]
  | h :: t => (c :: h) :: t

/-- Split on carriage-return-optional newlines, the regex split of
rewritePlaylist. -/
def splitLinesCRLF : Str → List Str
  | [] => [[]]
  | '\r' :: '\n' :: rest => [] :: splitLinesCRLF rest
  | '\n' :: rest => [] :: splitLinesCRLF rest
  | c :: rest => consLine c (splitLinesCRLF rest)

/-- rewritePlaylist: split on CRLF-or-LF, map the per-line rewrite, join
with newlines. -/
def rewritePlaylist (content : Str) (baseUrl : JsUrl) (referer : Option Str) : Str :=
  joinNl ((splitLinesCRLF content).map (rewritePlaylistLine baseUrl referer))

/-- Character class of the VTT URL regex: anything but whitespace and a
closing parenthesis may continue a matched URL. -/
def vttUrlChar (c : Char) : Bool :=
  !(isJsSpace c || c = ')')

/-- Attempt the VTT regex's two alternatives at the current position:
http(s) URLs, and ./ or ../ relative references; returns the matched text
and the rest. -/
def vttMatch (s : Str) : Option (Str × Str) :=
  let tryScheme : Option Str :=
    if startsWithStr (str "https://") s then some (str "https://")
    else if startsWithStr (str "http://") s then some (str "http://")
    else if startsWithStr (str "../") s then some (str "../")
    else if startsWithStr (str "./") s then some (str "./")
    else none
  match tryScheme with
  | none => none
  | some pre =>
    let afterPre := s.drop pre.length
    let tail := afterPre.takeWhile vttUrlChar
    if tail = [] then none
    else some (pre ++ tail, afterPre.drop tail.length)

/-- The replacement callback of rewriteVTT: absolute http(s) matches pass
through, relative matches resolve against the subtitle URL; the result is
proxied, and on resolution failure the match is kept. -/
def vttReplace (targetUrl : JsUrl) (refEncoded : Str) (m : Str) : Str :=
  if startsWithStr (str "http") m then
    proxyLine (encodeURIComponent m) refEncoded
  else
    match jsResolve m targetUrl with
    | some u => proxyLine (encodeURIComponent (hrefStr u)) refEncoded
    | none => m

/-- Fuel-driven scan of the body implementing the global regex replace of
rewriteVTT; fuel at least the length of the string is always enough. -/
def vttGo (targetUrl : JsUrl) (refEncoded : Str) : Nat → Str → Str
  | _, [] => []
  | 0, s => s
  | fuel + 1, c :: rest =>
    match vttMatch (c :: rest) with
    | some (m, after) =>
      vttReplace targetUrl refEncoded m ++ vttGo targetUrl refEncoded fuel after
    | none => c :: vttGo targetUrl refEncoded fuel rest

/-- rewriteVTT: replace every regex match in the body. -/
def rewriteVTT (body : Str) (targetUrl : JsUrl) (refEncoded : Str) : Str :=
  vttGo targetUrl refEncoded body.length body

/-! SSRF guard isBlockedHost (src/app/api/m3u8/route.ts lines 63-87). -/

/-- ASCII digit test. -/
def isDigitCh (c : Char) : Bool := 48 ≤ c.toNat && c.toNat ≤ 57

/-- Numeric value of a digit string (Number on the regex captures). -/
def digitsToNat (s : Str) : Nat := s.foldl (fun acc c => acc * 10 + (c.toNat - 48)) 0

/-- One capture of the dotted-quad regex: one to three digits. -/
def isOctet (s : Str) : Bool := decide (s ≠ []) && decide (s.length ≤ 3) && s.all isDigitCh

/-- Model of the anchored regex match against
four dot-separated groups of one to three digits, each read with Number. -/
def parseQuad (s : Str) : Option (Nat × Nat × Nat × Nat) :=
  match splitOnCh '.' s with
  | [a, b, c, d] =>
    if isOctet a && isOctet b && isOctet c && isOctet d then
      some (digitsToNat a, digitsToNat b, digitsToNat c, digitsToNat d)
    else none
  | _ => none

/-- isBlockedHost, translated branch for branch: literal loopback names,
private dotted-quad IPv4 ranges, local domain suffixes, and the string
prefixes fc00, fd00 and fe80. -/
def isBlockedHost (hostname : Str) : Bool :=
  let host := toLowerStr hostname
  if host = str "localhost" ∨ host = str "127.0.0.1" ∨ host = str "::1" then true
  else
    let ipv4Blocked : Bool :=
      match parseQuad host with
      | some (a, b, _, _) =>
        if a = 127 ∨ a = 0 then true
        else if a = 10 then true
        else if a = 169 ∧ b = 254 then true
        else if a = 172 ∧ 16 ≤ b ∧ b ≤ 31 then true
        else if a = 192 ∧ b = 168 then true
        else false
      | none => false
    if ipv4Blocked then true
    else if endsWithStr (str ".localhost") host = true ∨ endsWithStr (str ".local") host = true ∨
        endsWithStr (str ".internal") host = true then true
    else if startsWithStr (str "fc00") host = true ∨ startsWithStr (str "fd00") host = true ∨
        startsWithStr (str "fe80") host = true then true
    else false

/-! Playlist cache (src/app/api/m3u8/route.ts lines 5-61). -/

/-- Playlist cache TTL from the source: 15 * 60 * 1000 ms (15 minutes). -/
def PLAYLIST_CACHE_TTL_MS : Nat := 15 * 60 * 1000

/-- A row of the m3u8_cache table as the route reads it; fetchedAt is the
epoch-millisecond timestamp, none when the column is null. -/
structure CacheRow where
  content : Str
  isBinary : Bool
  encoding : Option Str
  fetchedAt : Option Int
deriving DecidableEq

/-- getCachedPlaylist on one looked-up row: a missing row, a null
fetchedAt (age Infinity) or an age above the TTL give a miss; otherwise
the stored content is served. -/
def getCachedPlaylist (row : Option CacheRow) (nowMs : Int) : Option Str :=
  match row with
  | none => none
  | some d =>
    match d.fetchedAt with
    | none => none
    | some f =>
      if nowMs - f > (PLAYLIST_CACHE_TTL_MS : Int) then none else some d.content

/-! Content-type inference (inferContentType). -/

/-- inferContentType, the extension switch of the first m3u8 route. -/
def inferContentType (ext : Option Str) : Str :=
  if ext = some (str "m3u8") || ext = some (str "m3u") then str "application/vnd.apple.mpegurl"
  else if ext = some (str "mpd") then str "application/dash+xml"
  else if ext = some (str "ts") then str "video/mp2t"
  else if ext = some (str "m4s") || ext = some (str "mp4") then str "video/mp4"
  else if ext = some (str "webm") then str "video/webm"
  else if ext = some (str "mp3") then str "audio/mpeg"
  else if ext = some (str "aac") then str "audio/aac"
  else if ext = some (str "m4a") then str "audio/mp4"
  else str "application/octet-stream"

/-- Extension of a pathname: pathname.split on dots, pop, toLowerCase. -/
def extOf (path : Str) : Option Str :=
  ((splitOnCh '.' path).getLast?).map toLowerStr

/-! Request pipeline of the first m3u8 route (GET, lines 168-323).
The asynchronous environment (the cache row the read would find, and the
upstream fetch outcome) is passed in as data; the result records the
response, the cache operations performed, and the upstream request sent. -/

/-- Upstream response data the route consumes. -/
structure UpstreamResp where
  status : Nat
  contentType : Option Str
  contentRange : Option Str
  acceptRanges : Option Str
  contentLength : Option Str
  textBody : Option Str
  hasBody : Bool
deriving DecidableEq

/-- Outcome of fetchWithTimeout. -/
inductive FetchOutcome where
  | timeout
  | network
  | ok (resp : UpstreamResp)
deriving DecidableEq

/-- An operation against the Supabase playlist cache. -/
inductive CacheOp where
  | read (key : Str)
  | write (key : Str) (content : Str)
deriving DecidableEq

/-- Query parameters and Range header of the incoming request. -/
structure M3u8Request where
  urlParam : Option Str
  refParam : Option Str
  rangeHeader : Option Str
deriving DecidableEq

/-- The environment of one request: flags, cache row for the computed key,
clock, and the upstream fetch outcome. -/
structure M3u8Env where
  req : M3u8Request
  cacheEnabled : Bool
  cacheRow : Option CacheRow
  nowMs : Int
  fetched : FetchOutcome

/-- Response the route returns; body is the text payload when one exists. -/
structure HttpResp where
  status : Nat
  headers : List (Str × Str)
  body : Option Str
deriving DecidableEq

/-- The upstream request issued: URL and outbound headers. -/
structure SentRequest where
  url : Str
  headers : List (Str × Str)
deriving DecidableEq

/-- Result of a request: HTTP response, the cache operations performed, and
the upstream request if one was sent. -/
structure M3u8Result where
  resp : HttpResp
  cacheOps : List CacheOp
  sent : Option SentRequest

/-- Case-sensitive header lookup in an association list. -/
def headerLookup (name : Str) (hs : List (Str × Str)) : Option Str :=
  (hs.find? fun p => p.1 = name).map Prod.snd

/-- The forwarded Referer and Origin headers of the first m3u8 route
(lines 230-238): Referer is the ref parameter verbatim, Origin is its
parsed origin and is omitted when parsing the ref throws. -/
def forwardHeadersOf (refParam : Option Str) : List (Str × Str) :=
  match refParam with
  | some r =>
    (str "Referer", r) ::
      (match parseAbsUrl r with
      | some u => [(str "Origin", originStr u)]
      | none => [])
  | none => []

/-- The GET handler of the first m3u8 route as a function of its
environment. Parse failures of the url parameter and non-http(s) schemes
both return status 400 as in the source. -/
def m3u8GET (env : M3u8Env) : M3u8Result :=
  match env.req.urlParam with
  | none => ⟨⟨400, [], none⟩, [], none⟩
  | some urlP =>
    match parseAbsUrl urlP with
    | none => ⟨⟨400, [], none⟩, [], none⟩
    | some targetUrl =>
      if isBlockedHost targetUrl.host then ⟨⟨403, [], none⟩, [], none⟩
      else
        let ext := extOf targetUrl.path
        let isPlaylist := ext = some (str "m3u8") || ext = some (str "m3u")
        let cacheKey :=
          match env.req.refParam with
          | some r => hrefStr targetUrl ++ str "::ref=" ++ r
          | none => hrefStr targetUrl
        let allowCache := env.cacheEnabled && env.req.rangeHeader.isNone
        let doLookup := allowCache && isPlaylist
        let hit : Option Str :=
          if doLookup then getCachedPlaylist env.cacheRow env.nowMs else none
        let readOps : List CacheOp := if doLookup then [CacheOp.read cacheKey] else []
        match hit with
        | some content =>
          ⟨⟨200, [(str "Content-Type", inferContentType ext),
            (str "Access-Control-Allow-Origin", str "*"),
            (str "Cache-Control", str "no-cache")], some content⟩, readOps, none⟩
        | none =>
          let sentHeaders :=
            [(str "User-Agent", str "Mozilla/5.0 (Node.js fetch)"),
              (str "Accept", str "*/*")] ++
            (match env.req.rangeHeader with
              | some r => [(str "Range", r)]
              | none => []) ++
            forwardHeadersOf env.req.refParam
          let sent := some (SentRequest.mk (hrefStr targetUrl) sentHeaders)
          match env.fetched with
          | FetchOutcome.timeout => ⟨⟨504, [], none⟩, readOps, sent⟩
          | FetchOutcome.network => ⟨⟨502, [], none⟩, readOps, sent⟩
          | FetchOutcome.ok u =>
            if !(200 ≤ u.status && u.status < 300) then
              ⟨⟨u.status, [], none⟩, readOps, sent⟩
            else
              let contentType := u.contentType.getD (inferContentType ext)
              if isPlaylist then
                match u.textBody with
                | none => ⟨⟨500, [], none⟩, readOps, sent⟩
                | some text =>
                  let rewritten := rewritePlaylist text targetUrl env.req.refParam
                  let writeOps : List CacheOp :=
                    if allowCache then [CacheOp.write cacheKey rewritten] else []
                  ⟨⟨200, [(str "Content-Type", contentType),
                    (str "Access-Control-Allow-Origin", str "*"),
                    (str "Cache-Control", str "no-cache")], some rewritten⟩,
                    readOps ++ writeOps, sent⟩
              else
                if !u.hasBody then ⟨⟨500, [], none⟩, readOps, sent⟩
                else
                  let rangeHs :=
                    (match u.contentRange with
                      | some v => [(str "Content-Range", v)]
                      | none => []) ++
                    (match u.acceptRanges with
                      | some v => [(str "Accept-Ranges", v)]
                      | none => []) ++
                    (match u.contentLength with
                      | some v => [(str "Content-Length", v)]
                      | none => [])
                  let ccHs :=
                    if env.req.rangeHeader.isNone then
                      [(str "Cache-Control", str "public, max-age=31536000, immutable")]
                    else []
                  ⟨⟨u.status, [(str "Content-Type", contentType),
                    (str "Access-Control-Allow-Origin", str "*")] ++ rangeHs ++ ccHs,
                    none⟩, readOps, sent⟩

/-! Express proxy (m3u8-proxy/src/routes/fetch.ts): outbound headers and
the HMAC-signed segment URLs. The HMAC itself is an external primitive and
is passed in as a function parameter. -/

/-- buildHeaders: browser-like headers, and when a referer is given both
Referer and Origin are set to the referer string itself. -/
def buildHeaders (ref : Option Str) : List (Str × Str) :=
  [(str "User-Agent",
      str "Mozilla/5.0 (Windows NT 10.0; Win64; x64) AppleWebKit/537.36 (KHTML, like Gecko) Chrome/121.0.0.0 Safari/537.36"),
    (str "Accept", str "application/vnd.apple.mpegurl, application/x-mpegURL, text/plain, */*"),
    (str "Accept-Language", str "en-US,en;q=0.9")] ++
  (match ref with
    | some r => [(str "Referer", r), (str "Origin", r)]
    | none => [])

/-- Decimal digit character. -/
def digitCh (m : Nat) : Char :=
  [ '0', '1', '2', '3', '4', '5', '6', '7', '8', '9' ].getD m '0'

/-- Decimal rendering of a natural number, as JavaScript template-string
interpolation renders it. -/
def natDec (n : Nat) : Str :=
  if _h : n < 10 then [digitCh n]
  else natDec (n / 10) ++ [digitCh (n % 10)]
decreasing_by omega

/-- Model of parseInt(s, 10): skip leading whitespace, optional sign, then
the leading run of digits; none models NaN. -/
def jsParseInt (s : Str) : Option Int :=
  let t := trimLeftStr s
  let neg : Bool := decide (t.head? = some '-')
  let t2 := if t.head? = some '-' ∨ t.head? = some '+' then t.drop 1 else t
  let digits := t2.takeWhile isDigitCh
  if digits = [] then none
  else some (if neg then -(digitsToNat digits : Int) else (digitsToNat digits : Int))

/-- Expiry minted by generateSignedUrl: now in seconds plus 600. -/
def generateSigExp (nowSec : Nat) : Nat := nowSec + 600

/-- The HMAC input and signature of generateSignedUrl: the MAC of
resourceId, decimal expiry and the kind, concatenated. -/
def generateSig (mac : Str → Str → Str) (secret resourceId : Str) (exp : Nat) (ty : Str) : Str :=
  mac secret (resourceId ++ natDec exp ++ ty)

/-- The signed URL string returned by generateSignedUrl. -/
def generateSignedUrl (mac : Str → Str → Str) (secret : Str) (nowSec : Nat)
    (resourceId : Str) (ty : Str) : Str :=
  str "/fetch/segment/resource?resourceId=" ++ resourceId ++
    str "&sig=" ++ generateSig mac secret resourceId (generateSigExp nowSec) ty ++
    str "&exp=" ++ natDec (generateSigExp nowSec)

/-- verifySignedUrl: reject when parseInt of the expiry is below now (a NaN
comparison is false and does not reject), then compare the signature with
the recomputed MAC over the expiry string as received. -/
def verifySignedUrl (mac : Str → Str → Str) (secret : Str) (nowSec : Int)
    (resourceId sig exp : Str) (ty : Str) : Bool :=
  let expired : Bool :=
    match jsParseInt exp with
    | some v => decide (v < nowSec)
    | none => false
  if expired then false
  else decide (sig = mac secret (resourceId ++ exp ++ ty))

/-! Scraper-cache route GET /api/episode/sources
(src/app/api/episode/sources/route.ts). -/

/-- Scraper cache TTL: 30 minutes in seconds. -/
def CACHE_TTL_SECONDS : Nat := 60 * 30

/-- The composite cache key. -/
def makeKey (episodeId category server : Str) : Str :=
  episodeId ++ str "::" ++ category ++ str "::" ++ server

/-- sanitize: URL-decode once when possible, keep the part before any
question mark, and re-attach a question-mark-ep-digits suffix when the
regex's optional group matches. -/
def sanitizeId (raw : Option Str) : Option Str :=
  match raw with
  | none => none
  | some s =>
    if s = [] then none
    else
      let decoded :=
        match decodeURIComponent s with
        | some d => d
        | none => s
      let pre := decoded.takeWhile (· ≠ '?')
      if pre = [] then some []
      else
        let rest := decoded.drop pre.length
        if startsWithStr (str "?ep=") rest then
          let digits := (rest.drop 4).takeWhile isDigitCh
          if digits = [] then some pre else some (pre ++ str "?ep=" ++ digits)
        else some pre

/-- A row of the episode_sources table as the route reads it. -/
structure SrcRow where
  data : Option Str
  fetchedAt : Option Int
deriving DecidableEq

/-- Body of the sources response: an error envelope, or data with the
fromCache flag; the route never emits any other field. -/
inductive SourcesBody where
  | err (msg : Str)
  | dat (payload : Str) (fromCache : Bool)
deriving DecidableEq

/-- Response of the sources route. -/
structure SourcesResp where
  status : Nat
  body : SourcesBody
deriving DecidableEq

/-- A write against the episode_sources table. -/
inductive DbOp where
  | upsert (compositeKey : Str) (payload : Str) (fetchedAtMs : Int)
deriving DecidableEq

/-- Environment of one sources request: query parameters, the cached row
the select would find, the clock, scraper availability and the scrape
outcome. -/
structure SourcesEnv where
  episodeIdRaw : Option Str
  categoryParam : Option Str
  serverParam : Option Str
  cachedRow : Option SrcRow
  nowMs : Int
  scraperAvailable : Bool
  scrapeResult : Except Str Str

/-- The GET handler of the sources route as a function of its environment,
returning the response and the table writes performed. -/
def sourcesGET (env : SourcesEnv) : SourcesResp × List DbOp :=
  let category :=
    match env.categoryParam with
    | some c => if c = [] then str "sub" else c
    | none => str "sub"
  let server :=
    match env.serverParam with
    | some s => if s = [] then str "hd-1" else s
    | none => str "hd-1"
  match sanitizeId env.episodeIdRaw with
  | none => (⟨400, SourcesBody.err (str "animeEpisodeId is required")⟩, [])
  | some e =>
    if e = [] then (⟨400, SourcesBody.err (str "animeEpisodeId is required")⟩, [])
    else
      let compositeKey := makeKey e category server
      let freshHit : Option Str :=
        match env.cachedRow with
        | some row =>
          match row.data with
          | some payload =>
            let fetchedAtMs :=
              match row.fetchedAt with
              | some f => f
              | none => 0
            if (env.nowMs - fetchedAtMs) / 1000 < (CACHE_TTL_SECONDS : Int) then
              some payload
            else none
          | none => none
        | none => none
      match freshHit with
      | some payload => (⟨200, SourcesBody.dat payload true⟩, [])
      | none =>
        if !env.scraperAvailable then
          (⟨503, SourcesBody.err (str "scraper unavailable")⟩, [])
        else
          match env.scrapeResult with
          | Except.error msg =>
            (⟨502, SourcesBody.err (str "scraper error: " ++ msg)⟩, [])
          | Except.ok payload =>
            (⟨200, SourcesBody.dat payload false⟩,
              [DbOp.upsert compositeKey payload env.nowMs])

/-! Decimal rendering and parseInt roundtrip lemmas for the signed URLs. -/

theorem digitCh_isDigit (m : Nat) (hm : m < 10) : isDigitCh (digitCh m) = true := by
  interval_cases m <;> decide

theorem digitCh_val (m : Nat) (hm : m < 10) : (digitCh m).toNat - 48 = m := by
  interval_cases m <;> decide

theorem digitsToNat_append_digit (a : Str) (c : Char) :
    digitsToNat (a ++ [c]) = digitsToNat a * 10 + (c.toNat - 48) := by
  simp [digitsToNat, List.foldl_append]

theorem natDec_ne_nil (n : Nat) : natDec n ≠ [] := by
  rw [natDec]
  split
  · simp
  · simp

theorem natDec_all_digits (n : Nat) : (natDec n).all isDigitCh = true := by
  induction n using Nat.strong_induction_on with
  | _ n ih =>
    rw [natDec]
    split
    · rename_i h
      simp [digitCh_isDigit n h]
    · rename_i h
      have hdiv : n / 10 < n := Nat.div_lt_self (by omega) (by omega)
      have h1 := ih (n / 10) hdiv
      have h2 := digitCh_isDigit (n % 10) (Nat.mod_lt _ (by omega))
      simp [List.all_append, h1, h2]

theorem digitsToNat_natDec (n : Nat) : digitsToNat (natDec n) = n := by
  induction n using Nat.strong_induction_on with
  | _ n ih =>
    rw [natDec]
    split
    · rename_i h
      have : digitsToNat [digitCh n] = (digitCh n).toNat - 48 := by
        simp [digitsToNat]
      rw [this, digitCh_val n h]
    · rename_i h
      have hdiv : n / 10 < n := Nat.div_lt_self (by omega) (by omega)
      rw [digitsToNat_append_digit, ih (n / 10) hdiv,
        digitCh_val (n % 10) (Nat.mod_lt _ (by omega))]
      omega

theorem natDec_head_digit (n : Nat) :
    ∃ c t, natDec n = c :: t ∧ isDigitCh c = true := by
  have hne := natDec_ne_nil n
  have hall := natDec_all_digits n
  cases h : natDec n with
  | nil => exact absurd h hne
  | cons c t =>
    refine ⟨c, t, rfl, ?_⟩
    rw [h] at hall
    simp [List.all_cons] at hall
    exact hall.1

theorem digit_not_space {c : Char} (hc : isDigitCh c = true) : isJsSpace c = false := by
  simp only [isDigitCh, Bool.and_eq_true, decide_eq_true_eq] at hc
  obtain ⟨h1, h2⟩ := hc
  simp only [isJsSpace, Bool.or_eq_false_iff, beq_eq_false_iff_ne]
  refine ⟨⟨⟨⟨⟨?_, ?_⟩, ?_⟩, ?_⟩, ?_⟩, ?_⟩ <;>
    (intro hEq; subst hEq; exact absurd h1 (by decide))

theorem jsParseInt_natDec (n : Nat) : jsParseInt (natDec n) = some (n : Int) := by
  obtain ⟨c, t, hct, hc⟩ := natDec_head_digit n
  have hminus : c ≠ '-' := by
    intro hEq
    subst hEq
    simp [isDigitCh] at hc
  have hplus : c ≠ '+' := by
    intro hEq
    subst hEq
    simp [isDigitCh] at hc
  have htrim : trimLeftStr (natDec n) = natDec n := by
    rw [hct]
    simp [trimLeftStr, digit_not_space hc]
  have hhead : (natDec n).head? = some c := by rw [hct]; rfl
  have htake : (natDec n).takeWhile isDigitCh = natDec n := by
    have hall := natDec_all_digits n
    rw [List.all_eq_true] at hall
    exact List.takeWhile_eq_self_iff.mpr hall
  have hor : ¬ ((natDec n).head? = some '-' ∨ (natDec n).head? = some '+') := by
    rw [hhead]
    intro hcon
    rcases hcon with h | h
    · exact hminus (Option.some.inj h)
    · exact hplus (Option.some.inj h)
  have hneg : decide ((natDec n).head? = some '-') = false := by
    rw [hhead]
    simp [hminus]
  simp only [jsParseInt]
  simp only [htrim]
  rw [if_neg hor]
  simp only [htake]
  rw [if_neg (natDec_ne_nil n)]
  simp [hneg, digitsToNat_natDec]

/-! Spec-side formalization of the claim's SSRF blocked set, for comparison
with the code's isBlockedHost. -/

/-- Hexadecimal value of a string, none when empty or not all hex digits. -/
def parseHexStr (s : Str) : Option Nat :=
  if s = [] then none
  else
    s.foldl
      (fun acc c =>
        match acc, hexVal c with
        | some a, some v => some (a * 16 + v)
        | _, _ => none)
      (some 0)

/-- First hextet of a colon-separated IPv6 textual address. -/
def firstHextet (s : Str) : Option Nat :=
  if s.contains ':' then parseHexStr (s.takeWhile (· ≠ ':')) else none

/-- The blocked set exactly as the claim words it: localhost, 127.0.0.1,
the IPv6 loopback, the incoming request's own host, IPv4 in 0/8, 10/8,
169.254/16, 172.16/12, 192.168/16, and IPv6 whose first hextet lies in
fc00::/7 (high 7 bits 1111110) or fe80::/10 (high 10 bits 1111111010). -/
def claimBlockedHost (reqHost hostname : Str) : Bool :=
  decide (hostname = str "localhost") || decide (hostname = str "127.0.0.1") ||
    decide (hostname = str "::1") || decide (hostname = reqHost) ||
    (match parseQuad hostname with
      | some (a, b, _, _) =>
        decide (a = 0) || decide (a = 10) || (decide (a = 169) && decide (b = 254)) ||
          (decide (a = 172) && decide (16 ≤ b) && decide (b ≤ 31)) ||
          (decide (a = 192) && decide (b = 168))
      | none => false) ||
    (match firstHextet hostname with
      | some h => decide (h / 512 = 126) || decide (h / 64 = 1018)
      | none => false)

theorem exists_quad_eq (a b c d : Nat) (P : Nat → Nat → Prop) :
    (∃ x y z w, (some (a, b, c, d) : Option (Nat × Nat × Nat × Nat)) = some (x, y, z, w) ∧
      P x y) ↔ P a b := by
  constructor
  · rintro ⟨x, y, z, w, hxy, hp⟩
    simp only [Option.some.injEq, Prod.mk.injEq] at hxy
    obtain ⟨rfl, rfl, rfl, rfl⟩ := hxy
    exact hp
  · intro hp
    exact ⟨a, b, c, d, rfl, hp⟩

/-! Claim theorems. -/

/-- C4 counterexample: fd12::1 lies in fc00::/7 and belongs to the claim's
blocked set, yet isBlockedHost permits it, because the code only checks the
string prefixes fc00, fd00 and fe80; the guard and the claim's set
disagree, so the claimed totality fails. -/
theorem c4_counterexample :
    claimBlockedHost (str "proxy.example.com") (str "fd12::1") = true ∧
      isBlockedHost (str "fd12::1") = false := by
  decide

set_option maxHeartbeats 2000000 in
/-- C4 amended: after lowercasing, the guard rejects exactly localhost,
127.0.0.1, the IPv6 loopback, dotted-quad IPv4 addresses in 127/8, 0/8,
10/8, 169.254/16, 172.16/12 and 192.168/16, names ending in .localhost,
.local or .internal, and hosts beginning with the strings fc00, fd00 or
fe80; every other host, in particular every other public IPv4 address,
passes. The incoming request's own host is never consulted, and IPv6
addresses in fc00::/7 or fe80::/10 outside those three literal prefixes
pass. -/
theorem isBlockedHost_characterization (h : Str) :
    isBlockedHost h = true ↔
      (toLowerStr h = str "localhost" ∨ toLowerStr h = str "127.0.0.1" ∨
        toLowerStr h = str "::1" ∨
        (∃ a b c d, parseQuad (toLowerStr h) = some (a, b, c, d) ∧
          (a = 127 ∨ a = 0 ∨ a = 10 ∨ (a = 169 ∧ b = 254) ∨
            (a = 172 ∧ 16 ≤ b ∧ b ≤ 31) ∨ (a = 192 ∧ b = 168))) ∨
        endsWithStr (str ".localhost") (toLowerStr h) = true ∨
        endsWithStr (str ".local") (toLowerStr h) = true ∨
        endsWithStr (str ".internal") (toLowerStr h) = true ∨
        startsWithStr (str "fc00") (toLowerStr h) = true ∨
        startsWithStr (str "fd00") (toLowerStr h) = true ∨
        startsWithStr (str "fe80") (toLowerStr h) = true) := by
  cases hq : parseQuad (toLowerStr h) with
  | none =>
    simp only [isBlockedHost, hq]
    split_ifs with h1 h2 h3 <;> simp_all [hq, Bool.not_eq_true] <;> tauto
  | some q =>
    obtain ⟨a, b, c, d⟩ := q
    rw [exists_quad_eq]
    simp only [isBlockedHost, hq]
    split_ifs with h1 h2 h3 h4 h5 h6 h7 h8 h9 <;> simp_all [Bool.not_eq_true] <;> tauto

/-- C3 counterexample: a URI-bearing comment line such as an EXT-X-KEY
directive is returned verbatim by rewriteM3U8 and no proxy URL is
substituted anywhere in the output, contradicting the claim that the
quoted URI is rewritten in place. -/
theorem c3_counterexample :
    rewriteM3U8 (str "#EXT-X-KEY:METHOD=AES-128,URI=\"key.bin\",IV=0x0")
      ⟨ str "https", str "cdn.example", str "/a/media.m3u8", []⟩ (str "R") =
      str "#EXT-X-KEY:METHOD=AES-128,URI=\"key.bin\",IV=0x0" ∧
    includesStr (str "URI=") (str "#EXT-X-KEY:METHOD=AES-128,URI=\"key.bin\",IV=0x0") = true ∧
    includesStr (str "/api/m3u8")
      (rewriteM3U8 (str "#EXT-X-KEY:METHOD=AES-128,URI=\"key.bin\",IV=0x0")
        ⟨ str "https", str "cdn.example", str "/a/media.m3u8", []⟩ (str "R")) = false := by
  decide

/-- C3 amended: every line whose trimmed form starts with a hash mark,
URI-bearing attribute or not, is returned unchanged by both rewriters; no
URI substitution happens inside comment lines. -/
theorem comment_lines_unchanged :
    ∀ (t : JsUrl) (refE : Str) (b : JsUrl) (ref : Option Str) (line : Str),
      startsWithStr (str "#") (trimStr line) = true →
      rewriteM3U8Line t refE line = line ∧ rewritePlaylistLine b ref line = line := by
  intro t refE b ref line h
  have hne : trimStr line ≠ [] := by
    intro hEq
    rw [hEq] at h
    simp [startsWithStr, str, List.isPrefixOf] at h
  constructor
  · simp only [rewriteM3U8Line]
    rw [if_neg hne, if_pos h]
  · simp only [rewritePlaylistLine]
    rw [if_neg hne, if_pos h]

/-- C3 witness: the EXT-X-KEY directive of the spec's scenario is passed
through unchanged by both per-line rewriters. -/
theorem comment_lines_unchanged_witness :
    rewriteM3U8Line ⟨ str "https", str "cdn.example", str "/a/media.m3u8", []⟩ (str "R")
        (str "#EXT-X-KEY:METHOD=AES-128,URI=\"key.bin\",IV=0x0") =
      str "#EXT-X-KEY:METHOD=AES-128,URI=\"key.bin\",IV=0x0" ∧
    rewritePlaylistLine ⟨ str "https", str "cdn.example", str "/a/media.m3u8", []⟩
        (some (str "R")) (str "#EXT-X-KEY:METHOD=AES-128,URI=\"key.bin\",IV=0x0") =
      str "#EXT-X-KEY:METHOD=AES-128,URI=\"key.bin\",IV=0x0" :=
  comment_lines_unchanged _ _ _ _ _ (by decide)

/-- C5 counterexample: at the instant the current time equals the expiry,
verification of a freshly signed URL still returns true, although the
current time is not strictly before the expiry; the claim's boundary is
wrong. -/
theorem c5_counterexample :
    verifySignedUrl (fun k m => k ++ m) (str "s") ((generateSigExp 0 : Nat) : Int)
        (str "r")
        (generateSig (fun k m => k ++ m) (str "s") (str "r") (generateSigExp 0)
          (str "segment"))
        (natDec (generateSigExp 0)) (str "segment") = true ∧
      ¬ (((generateSigExp 0 : Nat) : Int) < ((generateSigExp 0 : Nat) : Int)) := by
  constructor
  · simp [verifySignedUrl, jsParseInt_natDec, generateSig]
  · omega

/-- C5 amended: verification of a URL produced by the signer succeeds
exactly when the checking time is at or before the expiry (the HMAC always
matches by construction); in particular it is true strictly before expiry
and false strictly after. -/
theorem verify_sign_iff :
    ∀ (mac : Str → Str → Str) (secret resourceId : Str) (nowSec : Nat) (checkSec : Int),
      verifySignedUrl mac secret checkSec resourceId
          (generateSig mac secret resourceId (generateSigExp nowSec) (str "segment"))
          (natDec (generateSigExp nowSec)) (str "segment") = true ↔
        checkSec ≤ ((generateSigExp nowSec : Nat) : Int) := by
  intro mac secret resourceId nowSec checkSec
  by_cases h : ((generateSigExp nowSec : Nat) : Int) < checkSec
  · simp [verifySignedUrl, jsParseInt_natDec, generateSig, h] <;> omega
  · simp [verifySignedUrl, jsParseInt_natDec, generateSig, h] <;> omega

/-- C6 counterexample: a cached playlist 60 seconds old is still served
(60 s is far above the claimed 15-second bound), and the TTL constant is
900000 ms, not between 10 and 15 seconds. -/
theorem c6_counterexample :
    getCachedPlaylist (some ⟨ str "X", false, none, some 0⟩) 60000 = some (str "X") ∧
      ¬ ((60000 : Int) - 0 ≤ 15 * 1000) ∧
      ¬ (10 * 1000 ≤ PLAYLIST_CACHE_TTL_MS ∧ PLAYLIST_CACHE_TTL_MS ≤ 15 * 1000) := by
  refine ⟨by decide, by norm_num, ?_⟩
  simp [PLAYLIST_CACHE_TTL_MS]

/-- C6 amended: the playlist cache TTL is 15 minutes (900000 ms), and a
cached row with a fetchedAt timestamp is served exactly when its age is at
most 900000 ms. -/
theorem cached_playlist_served_iff :
    PLAYLIST_CACHE_TTL_MS = 900 * 1000 ∧
      ∀ (content : Str) (bin : Bool) (enc : Option Str) (f nowMs : Int),
        getCachedPlaylist (some ⟨content, bin, enc, some f⟩) nowMs = some content ↔
          nowMs - f ≤ 900000 := by
  refine ⟨rfl, ?_⟩
  intro content bin enc f nowMs
  by_cases h : nowMs - f > ((PLAYLIST_CACHE_TTL_MS : Nat) : Int)
  · simp only [getCachedPlaylist, if_pos h]
    simp only [PLAYLIST_CACHE_TTL_MS] at h
    constructor
    · intro hcon
      exact absurd hcon (by simp)
    · intro hle
      omega
  · simp only [getCachedPlaylist, if_neg h]
    simp only [PLAYLIST_CACHE_TTL_MS] at h
    constructor
    · intro _
      omega
    · intro _
      trivial

/-- C8 counterexample: with a one-hour-old cached record and a failing
scrape, the sources route answers 502 with an error envelope and performs
no table write; it does not answer 200 with the stale record, and no
stale field exists in any response the route can build. -/
theorem c8_counterexample :
    sourcesGET
        { episodeIdRaw := some (str "a?ep=1"), categoryParam := none,
          serverParam := none,
          cachedRow := some ⟨some (str "P"), some 0⟩, nowMs := 3600000,
          scraperAvailable := true, scrapeResult := Except.error (str "boom") } =
      (⟨502, SourcesBody.err (str "scraper error: boom")⟩, []) ∧ (502 : Nat) ≠ 200 := by
  constructor
  · decide
  · decide

/-- C8 amended: when the cached record is stale (age at least the
30-minute TTL) and the fresh scrape fails, the route returns 502 with the
scraper error message and performs no upsert, so the stale record is left
in place untouched; the stale record is not served. -/
theorem stale_scrape_failure_502 :
    ∀ (env : SourcesEnv) (e : Str) (row : SrcRow) (p : Str) (f : Int) (msg : Str),
      sanitizeId env.episodeIdRaw = some e → e ≠ [] →
      env.cachedRow = some row → row.data = some p → row.fetchedAt = some f →
      ¬ ((env.nowMs - f) / 1000 < (CACHE_TTL_SECONDS : Int)) →
      env.scraperAvailable = true →
      env.scrapeResult = Except.error msg →
      sourcesGET env = (⟨502, SourcesBody.err (str "scraper error: " ++ msg)⟩, []) := by
  intro env e row p f msg hsan hne hrow hdata hfetch hstale havail herr
  simp only [sourcesGET, hsan, hrow, hdata, hfetch, havail, herr]
  rw [if_neg hne, if_neg hstale]
  simp

/-- C8 witness: the amended statement applied at the concrete stale
environment of the spec's scenario. -/
theorem stale_scrape_failure_502_witness :
    sourcesGET
        { episodeIdRaw := some (str "b?ep=2"), categoryParam := none,
          serverParam := none,
          cachedRow := some ⟨some (str "Q"), some 0⟩, nowMs := 3600000,
          scraperAvailable := true, scrapeResult := Except.error (str "down") } =
      (⟨502, SourcesBody.err (str "scraper error: down")⟩, []) :=
  stale_scrape_failure_502 _ (str "b?ep=2") ⟨some (str "Q"), some 0⟩ (str "Q") 0 (str "down")
    (by decide) (by decide) rfl rfl rfl (by decide) rfl rfl

/-- C9 counterexample: buildHeaders with the default referer sets the
Origin header to the full referer string, which differs from the
referer's origin (the scheme plus host without the trailing slash). -/
theorem c9_counterexample :
    headerLookup (str "Origin") (buildHeaders (some (str "https://megacloud.blog/"))) =
        some (str "https://megacloud.blog/") ∧
      (parseAbsUrl (str "https://megacloud.blog/")).map originStr =
        some (str "https://megacloud.blog") ∧
      str "https://megacloud.blog/" ≠ str "https://megacloud.blog" := by
  decide

/-- C9 amended: the express proxy's buildHeaders sets both Referer and
Origin to the referer string verbatim, while the Next.js m3u8 route's
forwarded headers carry Referer verbatim and Origin equal to the parsed
origin of the referer, omitted when the referer does not parse. -/
theorem referer_origin_headers :
    (∀ r, headerLookup (str "Referer") (buildHeaders (some r)) = some r ∧
        headerLookup (str "Origin") (buildHeaders (some r)) = some r) ∧
      ∀ r, headerLookup (str "Referer") (forwardHeadersOf (some r)) = some r ∧
        headerLookup (str "Origin") (forwardHeadersOf (some r)) =
          (parseAbsUrl r).map originStr := by
  constructor
  · intro r
    exact ⟨rfl, rfl⟩
  · intro r
    cases h : parseAbsUrl r with
    | none =>
      simp only [forwardHeadersOf, h]
      exact ⟨rfl, rfl⟩
    | some u =>
      simp only [forwardHeadersOf, h]
      exact ⟨rfl, rfl⟩

/-! Branch-selection helpers for the per-line rewriters. -/

theorem startsWith_false_of_head {c1 c2 : Char} {p1 p2 s : Str}
    (h : startsWithStr (c1 :: p1) s = true) (hne : c2 ≠ c1) :
    startsWithStr (c2 :: p2) s = false := by
  cases s with
  | nil => simp [startsWithStr, List.isPrefixOf] at h
  | cons b bs =>
    simp only [startsWithStr, List.isPrefixOf, Bool.and_eq_true, beq_iff_eq] at h
    obtain ⟨hb, _⟩ := h
    subst hb
    simp [startsWithStr, List.isPrefixOf, hne]

theorem startsWith_slash_of_dslash {s : Str}
    (h : startsWithStr (str "//") s = true) : startsWithStr (str "/") s = true := by
  cases s with
  | nil => simp [startsWithStr, str, List.isPrefixOf] at h
  | cons b bs =>
    have h2 : startsWithStr ('/' :: str "/") (b :: bs) = true := h
    simp only [startsWithStr, List.isPrefixOf, Bool.and_eq_true, beq_iff_eq] at h2
    obtain ⟨hb, _⟩ := h2
    subst hb
    simp [startsWithStr, str, List.isPrefixOf]

theorem rwLine_branchAbs (t : JsUrl) (refE line : Str)
    (hne : trimStr line ≠ [])
    (hh : startsWithStr (str "#") (trimStr line) = false)
    (hc : (startsWithStr (str "http://") (trimStr line) ||
      startsWithStr (str "https://") (trimStr line)) = true) :
    rewriteM3U8Line t refE line = proxyLine (encodeURIComponent (trimStr line)) refE := by
  simp only [rewriteM3U8Line]
  rw [if_neg hne, if_neg (by simp [hh]), if_pos hc]

theorem rwLine_branchProto (t : JsUrl) (refE line : Str)
    (hne : trimStr line ≠ [])
    (hh : startsWithStr (str "#") (trimStr line) = false)
    (hp : startsWithStr (str "//") (trimStr line) = true) :
    rewriteM3U8Line t refE line =
      match parseAbsUrl (t.scheme ++ ':' :: trimStr line) with
      | some u => proxyLine (encodeURIComponent (hrefStr u)) refE
      | none => line := by
  have hp2 : startsWithStr ('/' :: str "/") (trimStr line) = true := hp
  have habs1 : startsWithStr (str "http://") (trimStr line) = false :=
    startsWith_false_of_head hp2 (by decide)
  have habs2 : startsWithStr (str "https://") (trimStr line) = false :=
    startsWith_false_of_head hp2 (by decide)
  simp only [rewriteM3U8Line]
  rw [if_neg hne, if_neg (by simp [hh]), if_neg (by simp [habs1, habs2]), if_pos hp]

theorem rwLine_branchRoot (t : JsUrl) (refE line : Str)
    (hne : trimStr line ≠ [])
    (hh : startsWithStr (str "#") (trimStr line) = false)
    (hs : startsWithStr (str "/") (trimStr line) = true)
    (hds : startsWithStr (str "//") (trimStr line) = false) :
    rewriteM3U8Line t refE line =
      match jsResolve (trimStr line) (originUrl t) with
      | some u => proxyLine (encodeURIComponent (hrefStr u)) refE
      | none => line := by
  have hs2 : startsWithStr ('/' :: ([] : Str)) (trimStr line) = true := hs
  have habs1 : startsWithStr (str "http://") (trimStr line) = false :=
    startsWith_false_of_head hs2 (by decide)
  have habs2 : startsWithStr (str "https://") (trimStr line) = false :=
    startsWith_false_of_head hs2 (by decide)
  simp only [rewriteM3U8Line]
  rw [if_neg hne, if_neg (by simp [hh]), if_neg (by simp [habs1, habs2]),
    if_neg (by simp [hds]), if_pos hs]

theorem rwLine_branchRel (t : JsUrl) (refE line : Str)
    (hne : trimStr line ≠ [])
    (hh : startsWithStr (str "#") (trimStr line) = false)
    (h1 : startsWithStr (str "http://") (trimStr line) = false)
    (h2 : startsWithStr (str "https://") (trimStr line) = false)
    (h3 : startsWithStr (str "/") (trimStr line) = false)
    (h4 : includesStr (str "://") (trimStr line) = false) :
    rewriteM3U8Line t refE line =
      match jsResolve (trimStr line) t with
      | some u => proxyLine (encodeURIComponent (hrefStr u)) refE
      | none => line := by
  have hds : startsWithStr (str "//") (trimStr line) = false := by
    cases hcon : startsWithStr (str "//") (trimStr line) with
    | false => rfl
    | true => rw [startsWith_slash_of_dslash hcon] at h3; exact absurd h3 (by simp)
  simp only [rewriteM3U8Line]
  rw [if_neg hne, if_neg (by simp [hh]), if_neg (by simp [h1, h2]),
    if_neg (by simp [hds]), if_neg (by simp [h3]), if_pos (by simp [h4, hh])]

theorem rwLine_branchOther (t : JsUrl) (refE line : Str)
    (hne : trimStr line ≠ [])
    (hh : startsWithStr (str "#") (trimStr line) = false)
    (h1 : startsWithStr (str "http://") (trimStr line) = false)
    (h2 : startsWithStr (str "https://") (trimStr line) = false)
    (h3 : startsWithStr (str "/") (trimStr line) = false)
    (h4 : includesStr (str "://") (trimStr line) = true) :
    rewriteM3U8Line t refE line = line := by
  have hds : startsWithStr (str "//") (trimStr line) = false := by
    cases hcon : startsWithStr (str "//") (trimStr line) with
    | false => rfl
    | true => rw [startsWith_slash_of_dslash hcon] at h3; exact absurd h3 (by simp)
  simp only [rewriteM3U8Line]
  rw [if_neg hne, if_neg (by simp [hh]), if_neg (by simp [h1, h2]),
    if_neg (by simp [hds]), if_neg (by simp [h3]), if_neg (by simp [h4])]

/-- C1 counterexample: the protocol-relative line with a malformed host
remains unchanged in the output (the URL constructor throws and the catch
returns the line), so after rewriting a non-comment non-blank line still
matches a leading double slash, and it is not a proxy URL. -/
theorem c1_counterexample :
    rewriteM3U8 (str "//[bad") ⟨ str "https", str "cdn.example", str "/a/master.m3u8", []⟩
        (str "R") = str "//[bad" ∧
      startsWithStr (str "//") (trimStr (str "//[bad")) = true ∧
      trimStr (str "//[bad") ≠ [] ∧
      startsWithStr (str "#") (trimStr (str "//[bad")) = false ∧
      startsWithStr (str "/api/m3u8")
        (rewriteM3U8 (str "//[bad") ⟨ str "https", str "cdn.example", str "/a/master.m3u8", []⟩
          (str "R")) = false := by
  decide

/-- C1 amended: every non-blank non-comment line whose URL construction
succeeds is replaced by a proxy URL whose url parameter URL-decodes to the
trimmed line itself for absolute http(s) hrefs (the code encodes the line
verbatim without resolving it) and to the resolution against the playlist
URL for protocol-relative, root-relative and relative hrefs; lines whose
construction fails are left unchanged, so the claimed universal rewrite
holds only on resolvable lines. -/
theorem rewriteM3U8_line_shapes (t : JsUrl) (ref line : Str)
    (hne : trimStr line ≠ [])
    (hh : startsWithStr (str "#") (trimStr line) = false) :
    ((startsWithStr (str "http://") (trimStr line) = true ∨
        startsWithStr (str "https://") (trimStr line) = true) →
      rewriteM3U8Line t (encodeURIComponent ref) line =
        proxyLine (encodeURIComponent (trimStr line)) (encodeURIComponent ref) ∧
      decodeURIComponent (encodeURIComponent (trimStr line)) = some (trimStr line)) ∧
    (startsWithStr (str "//") (trimStr line) = true →
      ∀ u, parseAbsUrl (t.scheme ++ ':' :: trimStr line) = some u →
        rewriteM3U8Line t (encodeURIComponent ref) line =
          proxyLine (encodeURIComponent (hrefStr u)) (encodeURIComponent ref) ∧
        decodeURIComponent (encodeURIComponent (hrefStr u)) = some (hrefStr u)) ∧
    (startsWithStr (str "/") (trimStr line) = true →
      startsWithStr (str "//") (trimStr line) = false →
      ∀ u, jsResolve (trimStr line) (originUrl t) = some u →
        rewriteM3U8Line t (encodeURIComponent ref) line =
          proxyLine (encodeURIComponent (hrefStr u)) (encodeURIComponent ref) ∧
        decodeURIComponent (encodeURIComponent (hrefStr u)) = some (hrefStr u)) ∧
    (startsWithStr (str "http://") (trimStr line) = false →
      startsWithStr (str "https://") (trimStr line) = false →
      startsWithStr (str "/") (trimStr line) = false →
      includesStr (str "://") (trimStr line) = false →
      ∀ u, jsResolve (trimStr line) t = some u →
        rewriteM3U8Line t (encodeURIComponent ref) line =
          proxyLine (encodeURIComponent (hrefStr u)) (encodeURIComponent ref) ∧
        decodeURIComponent (encodeURIComponent (hrefStr u)) = some (hrefStr u)) := by
  refine ⟨?_, ?_, ?_, ?_⟩
  · intro hc
    refine ⟨?_, decode_encode _⟩
    exact rwLine_branchAbs t _ line hne hh (by rcases hc with h | h <;> simp [h])
  · intro hp u hu
    refine ⟨?_, decode_encode _⟩
    rw [rwLine_branchProto t _ line hne hh hp, hu]
  · intro hs hds u hu
    refine ⟨?_, decode_encode _⟩
    rw [rwLine_branchRoot t _ line hne hh hs hds, hu]
  · intro h1 h2 h3 h4 u hu
    refine ⟨?_, decode_encode _⟩
    rw [rwLine_branchRel t _ line hne hh h1 h2 h3 h4, hu]

/-- C1 witness: the amended statement applied to the spec's master
playlist scenario, a relative line against the playlist URL. -/
theorem rewriteM3U8_line_shapes_witness :
    rewriteM3U8Line ⟨ str "https", str "cdn.example", str "/a/master.m3u8", []⟩
        (encodeURIComponent (str "https://ref.example/p")) (str "low/index.m3u8") =
      proxyLine (encodeURIComponent (str "https://cdn.example/a/low/index.m3u8"))
        (encodeURIComponent (str "https://ref.example/p")) ∧
    decodeURIComponent (encodeURIComponent (str "https://cdn.example/a/low/index.m3u8")) =
      some (str "https://cdn.example/a/low/index.m3u8") := by
  have h := (rewriteM3U8_line_shapes
    ⟨ str "https", str "cdn.example", str "/a/master.m3u8", []⟩
    (str "https://ref.example/p") (str "low/index.m3u8")
    (by decide) (by decide)).2.2.2
    (by decide) (by decide) (by decide) (by decide)
    ⟨ str "https", str "cdn.example", str "/a/low/index.m3u8", []⟩ (by decide)
  exact h

/-- C10: the rewriters are total functions of their input and never abort a
rewrite; a non-blank non-comment line whose URL construction fails in any
branch, or that carries a non-http(s) scheme, is emitted unchanged in place
of raising an error. -/
theorem rewriters_passthrough_on_failure (t b : JsUrl) (refE : Str) (ref : Option Str)
    (line : Str)
    (hne : trimStr line ≠ [])
    (hh : startsWithStr (str "#") (trimStr line) = false) :
    (startsWithStr (str "//") (trimStr line) = true →
      parseAbsUrl (t.scheme ++ ':' :: trimStr line) = none →
      rewriteM3U8Line t refE line = line) ∧
    (startsWithStr (str "/") (trimStr line) = true →
      startsWithStr (str "//") (trimStr line) = false →
      jsResolve (trimStr line) (originUrl t) = none →
      rewriteM3U8Line t refE line = line) ∧
    (startsWithStr (str "http://") (trimStr line) = false →
      startsWithStr (str "https://") (trimStr line) = false →
      startsWithStr (str "/") (trimStr line) = false →
      includesStr (str "://") (trimStr line) = false →
      jsResolve (trimStr line) t = none →
      rewriteM3U8Line t refE line = line) ∧
    (startsWithStr (str "http://") (trimStr line) = false →
      startsWithStr (str "https://") (trimStr line) = false →
      startsWithStr (str "/") (trimStr line) = false →
      includesStr (str "://") (trimStr line) = true →
      rewriteM3U8Line t refE line = line) ∧
    (jsResolve (trimStr line) b = none →
      rewritePlaylistLine b ref line = line) := by
  refine ⟨?_, ?_, ?_, ?_, ?_⟩
  · intro hp hu
    rw [rwLine_branchProto t refE line hne hh hp, hu]
  · intro hs hds hu
    rw [rwLine_branchRoot t refE line hne hh hs hds, hu]
  · intro h1 h2 h3 h4 hu
    rw [rwLine_branchRel t refE line hne hh h1 h2 h3 h4, hu]
  · intro h1 h2 h3 h4
    exact rwLine_branchOther t refE line hne hh h1 h2 h3 h4
  · intro hu
    simp only [rewritePlaylistLine]
    rw [if_neg hne, if_neg (by simp [hh]), hu]

/-- C10 witness: the malformed protocol-relative reference passes through
both rewriters unchanged. -/
theorem rewriters_passthrough_on_failure_witness :
    rewriteM3U8Line ⟨ str "https", str "cdn.example", str "/a/master.m3u8", []⟩
        (str "R") (str "//[bad") = str "//[bad" ∧
      rewritePlaylistLine ⟨ str "https", str "cdn.example", str "/a/master.m3u8", []⟩
        (some (str "R")) (str "//[bad") = str "//[bad" := by
  have h := rewriters_passthrough_on_failure
    ⟨ str "https", str "cdn.example", str "/a/master.m3u8", []⟩
    ⟨ str "https", str "cdn.example", str "/a/master.m3u8", []⟩
    (str "R") (some (str "R")) (str "//[bad") (by decide) (by decide)
  exact ⟨h.1 (by decide) (by decide), h.2.2.2.2 (by decide)⟩

/-! Newline-preservation lemmas for C2. -/

theorem countNl_proxyLine (e r : Str) (he : countNl e = 0) (hr : countNl r = 0) :
    countNl (proxyLine e r) = 0 := by
  simp only [proxyLine, countNl_append, he, hr]
  decide

theorem trimLeftStr_eq_dropWhile (s : Str) :
    trimLeftStr s = s.dropWhile isJsSpace := by
  induction s with
  | nil => rfl
  | cons c rest ih =>
    simp only [trimLeftStr, List.dropWhile_cons]
    by_cases h : isJsSpace c <;> simp [h, ih]

theorem startsWith_hash_trim {line : Str}
    (h : startsWithStr (str "#") line = true) :
    startsWithStr (str "#") (trimStr line) = true := by
  have hline : ∃ rest, line = '#' :: rest := by
    cases line with
    | nil => simp [startsWithStr, str, List.isPrefixOf] at h
    | cons b bs =>
      simp only [startsWithStr, str, List.isPrefixOf, Bool.and_eq_true, beq_iff_eq] at h
      exact ⟨bs, by rw [h.1]⟩
  obtain ⟨rest, rfl⟩ := hline
  simp only [trimStr, trimLeftStr_eq_dropWhile, List.reverse_cons]
  rw [List.dropWhile_append]
  by_cases hall : (rest.reverse.dropWhile isJsSpace).isEmpty
  · simp only [hall, if_pos]
    have : List.dropWhile isJsSpace ['#'] = ['#'] := by decide
    rw [this]
    decide
  · simp only [hall, if_neg, Bool.false_eq_true, if_false]
    rw [List.reverse_append]
    simp only [List.reverse_cons, List.reverse_nil, List.nil_append, List.cons_append,
      List.nil_append]
    have : List.dropWhile isJsSpace
        ('#' :: (List.dropWhile isJsSpace rest.reverse).reverse) =
        '#' :: (List.dropWhile isJsSpace rest.reverse).reverse := by
      rw [List.dropWhile_cons]
      simp [(by decide : isJsSpace '#' = false)]
    rw [this]
    simp [startsWithStr, str, List.isPrefixOf]

theorem rwLine_comment_helper (t : JsUrl) (refE line : Str)
    (h : startsWithStr (str "#") (trimStr line) = true) :
    rewriteM3U8Line t refE line = line := by
  have hne : trimStr line ≠ [] := by
    intro hEq
    rw [hEq] at h
    simp [startsWithStr, str, List.isPrefixOf] at h
  simp only [rewriteM3U8Line]
  rw [if_neg hne, if_pos h]

theorem countNl_rewriteM3U8Line (t : JsUrl) (refE line : Str)
    (hr : countNl refE = 0) (hl : countNl line = 0) :
    countNl (rewriteM3U8Line t refE line) = 0 := by
  have henc : ∀ s : Str, countNl (proxyLine (encodeURIComponent s) refE) = 0 :=
    fun s => countNl_proxyLine _ _ (countNl_encodeURIComponent s) hr
  simp only [rewriteM3U8Line]
  split_ifs <;>
    first
      | exact hl
      | exact henc _
      | (split
         · exact henc _
         · exact hl)

theorem length_splitOnNl_rewriteM3U8 (body : Str) (t : JsUrl) (refE : Str)
    (hr : countNl refE = 0) :
    splitOnNl (rewriteM3U8 body t refE) =
      (splitOnNl body).map (rewriteM3U8Line t refE) := by
  apply splitOnNl_joinNl
  · intro hEq
    exact splitOnNl_ne_nil body (List.map_eq_nil_iff.mp hEq)
  · intro p hp
    obtain ⟨q, hq, rfl⟩ := List.mem_map.mp hp
    exact countNl_rewriteM3U8Line t refE q hr (splitOnNl_parts_nlFree body q hq)

theorem vttUrlChar_nl : vttUrlChar '\n' = false := by decide

theorem vtt_decomp_of_pre (pre s : Str) (hpre : startsWithStr pre s = true)
    (hnl : countNl pre = 0) :
    s = (pre ++ (s.drop pre.length).takeWhile vttUrlChar) ++
        (s.drop pre.length).drop ((s.drop pre.length).takeWhile vttUrlChar).length ∧
      countNl (pre ++ (s.drop pre.length).takeWhile vttUrlChar) = 0 := by
  have hps : pre <+: s := by
    simpa [startsWithStr, List.isPrefixOf_iff_prefix] using hpre
  obtain ⟨t, ht⟩ := hps
  have hdrop : s.drop pre.length = t := by
    rw [← ht, List.drop_left]
  have htw : t = t.takeWhile vttUrlChar ++ t.dropWhile vttUrlChar :=
    (List.takeWhile_append_dropWhile vttUrlChar t).symm
  have hdrop2 : t.drop (t.takeWhile vttUrlChar).length = t.dropWhile vttUrlChar := by
    nth_rewrite 2 [htw]
    exact List.drop_left _ _
  have htailnl : countNl (t.takeWhile vttUrlChar) = 0 := by
    rw [countNl, List.count_eq_zero]
    intro hmem
    have := List.mem_takeWhile_imp hmem
    rw [vttUrlChar_nl] at this
    exact Bool.false_ne_true this
  constructor
  · rw [hdrop, hdrop2, List.append_assoc, ← htw, ht]
  · rw [hdrop, countNl_append, hnl, htailnl]

theorem vttMatch_decomp (s m after : Str) (h : vttMatch s = some (m, after)) :
    s = m ++ after ∧ countNl m = 0 := by
  simp only [vttMatch] at h
  split at h
  · -- the scheme selector returned none
    simp at h
  · rename_i pre heq
    split at h
    · simp at h
    · simp only [Option.some.injEq, Prod.mk.injEq] at h
      obtain ⟨hm, hafter⟩ := h
      subst hm
      subst hafter
      have hnl : countNl pre = 0 ∧ startsWithStr pre s = true := by
        split at heq
        · rename_i hc
          simp only [Option.some.injEq] at heq
          subst heq
          exact ⟨by decide, hc⟩
        · split at heq
          · rename_i hc
            simp only [Option.some.injEq] at heq
            subst heq
            exact ⟨by decide, hc⟩
          · split at heq
            · rename_i hc
              simp only [Option.some.injEq] at heq
              subst heq
              exact ⟨by decide, hc⟩
            · split at heq
              · rename_i hc
                simp only [Option.some.injEq] at heq
                subst heq
                exact ⟨by decide, hc⟩
              · simp at heq
      exact vtt_decomp_of_pre pre s hnl.2 hnl.1

theorem countNl_vttReplace (t : JsUrl) (refE m : Str)
    (hr : countNl refE = 0) (hm : countNl m = 0) :
    countNl (vttReplace t refE m) = 0 := by
  simp only [vttReplace]
  split_ifs
  · exact countNl_proxyLine _ _ (countNl_encodeURIComponent _) hr
  · split
    · exact countNl_proxyLine _ _ (countNl_encodeURIComponent _) hr
    · exact hm

theorem countNl_vttGo (t : JsUrl) (refE : Str) (hr : countNl refE = 0) :
    ∀ (fuel : Nat) (s : Str), countNl (vttGo t refE fuel s) = countNl s := by
  intro fuel
  induction fuel with
  | zero =>
    intro s
    cases s <;> rfl
  | succ f ih =>
    intro s
    cases s with
    | nil => rfl
    | cons c rest =>
      simp only [vttGo]
      cases hm : vttMatch (c :: rest) with
      | none =>
        simp only []
        rw [countNl_cons, countNl_cons, ih rest]
      | some p =>
        obtain ⟨m, after⟩ := p
        obtain ⟨hsplit, hmnl⟩ := vttMatch_decomp _ _ _ hm
        simp only []
        rw [countNl_append, countNl_vttReplace t refE m hr hmnl, ih after, hsplit,
          countNl_append, hmnl]

theorem countNl_rewriteVTT (body : Str) (t : JsUrl) (refE : Str)
    (hr : countNl refE = 0) :
    countNl (rewriteVTT body t refE) = countNl body :=
  countNl_vttGo t refE hr body.length body

/-- C2: rewriting preserves the number of lines for M3U8 (split on
newlines), every comment line without a URI attribute appears verbatim at
the same index in the output, and rewriting preserves the newline count,
hence the line count, for VTT. -/
theorem rewrite_preserves_lines :
    (∀ (body : Str) (t : JsUrl) (ref : Str),
      (splitOnNl (rewriteM3U8 body t (encodeURIComponent ref))).length =
        (splitOnNl body).length) ∧
    (∀ (body : Str) (t : JsUrl) (ref : Str) (i : Nat) (line : Str),
      (splitOnNl body)[i]? = some line →
      startsWithStr (str "#") line = true →
      includesStr (str "URI=") line = false →
      (splitOnNl (rewriteM3U8 body t (encodeURIComponent ref)))[i]? = some line) ∧
    (∀ (body : Str) (t : JsUrl) (ref : Str),
      (splitOnNl (rewriteVTT body t (encodeURIComponent ref))).length =
        (splitOnNl body).length) := by
  refine ⟨?_, ?_, ?_⟩
  · intro body t ref
    rw [length_splitOnNl_rewriteM3U8 body t _ (countNl_encodeURIComponent ref),
      List.length_map]
  · intro body t ref i line hi hhash _huri
    rw [length_splitOnNl_rewriteM3U8 body t _ (countNl_encodeURIComponent ref)]
    rw [List.getElem?_map, hi]
    simp [rwLine_comment_helper t (encodeURIComponent ref) line (startsWith_hash_trim hhash)]
  · intro body t ref
    rw [length_splitOnNl, length_splitOnNl,
      countNl_rewriteVTT body t _ (countNl_encodeURIComponent ref)]

/-- C2 witness: on the master-playlist scenario the output has the same
number of lines and the comment lines appear verbatim at indices 0 and 1. -/
theorem rewrite_preserves_lines_witness :
    (splitOnNl (rewriteM3U8 (str "#EXTM3U\n#EXT-X-STREAM-INF:BANDWIDTH=800000\nlow/index.m3u8")
        ⟨ str "https", str "cdn.example", str "/a/master.m3u8", []⟩
        (encodeURIComponent (str "https://r.example/")))).length =
      (splitOnNl (str "#EXTM3U\n#EXT-X-STREAM-INF:BANDWIDTH=800000\nlow/index.m3u8")).length ∧
    (splitOnNl (rewriteM3U8 (str "#EXTM3U\n#EXT-X-STREAM-INF:BANDWIDTH=800000\nlow/index.m3u8")
        ⟨ str "https", str "cdn.example", str "/a/master.m3u8", []⟩
        (encodeURIComponent (str "https://r.example/"))))[0]? = some (str "#EXTM3U") := by
  constructor
  · exact rewrite_preserves_lines.1
      (str "#EXTM3U\n#EXT-X-STREAM-INF:BANDWIDTH=800000\nlow/index.m3u8")
      ⟨ str "https", str "cdn.example", str "/a/master.m3u8", []⟩
      (str "https://r.example/")
  · exact rewrite_preserves_lines.2.1
      (str "#EXTM3U\n#EXT-X-STREAM-INF:BANDWIDTH=800000\nlow/index.m3u8")
      ⟨ str "https", str "cdn.example", str "/a/master.m3u8", []⟩
      (str "https://r.example/") 0 (str "#EXTM3U") (by decide) (by decide) (by decide)

/-! Range-request lemmas for C7. -/

theorem m3u8GET_range_bypass (env : M3u8Env) (r : Str)
    (hr : env.req.rangeHeader = some r) :
    (m3u8GET env).cacheOps = [] ∧
      ∀ sr, (m3u8GET env).sent = some sr →
        headerLookup (str "Range") sr.headers = some r := by
  obtain ⟨⟨up, rp, rh⟩, ce, row, now, fetched⟩ := env
  simp only at hr
  subst hr
  cases up with
  | none =>
    refine ⟨rfl, ?_⟩
    intro sr h
    simp [m3u8GET] at h
  | some s =>
    cases hp : parseAbsUrl s with
    | none =>
      refine ⟨by simp [m3u8GET, hp], ?_⟩
      intro sr h
      simp [m3u8GET, hp] at h
    | some tgt =>
      by_cases hb : isBlockedHost tgt.host
      · refine ⟨by simp [m3u8GET, hp, hb], ?_⟩
        intro sr h
        simp [m3u8GET, hp, hb] at h
      · constructor
        · simp only [m3u8GET, hp, if_neg hb]
          simp only [Option.isNone_some, Bool.and_false, Bool.false_and,
            Bool.false_eq_true, if_false]
          rcases fetched with _ | _ | u
          · rfl
          · rfl
          · repeat' split
            all_goals rfl
        · intro sr h
          simp only [m3u8GET, hp, if_neg hb] at h
          simp only [Option.isNone_some, Bool.and_false, Bool.false_and,
            Bool.false_eq_true, if_false] at h
          rcases fetched with _ | _ | u
          · simp only [Option.some.injEq] at h
            rw [← h]
            rfl
          · simp only [Option.some.injEq] at h
            rw [← h]
            rfl
          · repeat' split at h
            all_goals
              simp only [Option.some.injEq] at h
            all_goals
              rw [← h]
            all_goals rfl

theorem m3u8GET_binary_206 (env : M3u8Env) (r s : Str) (tgt : JsUrl) (u : UpstreamResp)
    (hr : env.req.rangeHeader = some r)
    (hurl : env.req.urlParam = some s)
    (hp : parseAbsUrl s = some tgt)
    (hb : isBlockedHost tgt.host = false)
    (hnp : (extOf tgt.path = some (str "m3u8") ∨ extOf tgt.path = some (str "m3u")) → False)
    (hf : env.fetched = FetchOutcome.ok u)
    (hs : u.status = 206)
    (hbody : u.hasBody = true) :
    (m3u8GET env).resp.status = 206 ∧
      headerLookup (str "Content-Range") (m3u8GET env).resp.headers = u.contentRange := by
  obtain ⟨⟨up, rp, rh⟩, ce, row, now, fetched⟩ := env
  simp only at hr hurl hf
  subst hr
  subst hurl
  subst hf
  have hpl1 : decide (extOf tgt.path = some (str "m3u8")) = false := by
    cases hd : decide (extOf tgt.path = some (str "m3u8")) with
    | false => rfl
    | true => exact absurd (Or.inl (of_decide_eq_true hd)) hnp
  have hpl2 : decide (extOf tgt.path = some (str "m3u")) = false := by
    cases hd : decide (extOf tgt.path = some (str "m3u")) with
    | false => rfl
    | true => exact absurd (Or.inr (of_decide_eq_true hd)) hnp
  have hok : (200 ≤ u.status && u.status < 300) = true := by
    rw [hs]
    decide
  simp only [m3u8GET, hp, hb, Option.isNone_some, Bool.and_false,
    Bool.false_and, Bool.false_eq_true, if_false, hpl1, hpl2, Bool.or_self, hok,
    Bool.not_true, hbody]
  constructor
  · exact hs
  · cases u.contentRange with
    | none =>
      cases u.acceptRanges <;> cases u.contentLength <;> rfl
    | some v =>
      cases u.acceptRanges <;> cases u.contentLength <;> rfl

/-- Concrete ranged playlist request with an upstream 206, for the C7
counterexample. -/
def c7PlaylistEnv : M3u8Env :=
  { req :=
      { urlParam := some (str "https://cdn.example/a/x.m3u8"),
        refParam := none, rangeHeader := some (str "bytes=0-9") },
    cacheEnabled := true, cacheRow := none, nowMs := 0,
    fetched := FetchOutcome.ok
      { status := 206, contentType := some (str "application/vnd.apple.mpegurl"),
        contentRange := some (str "bytes 0-9/100"),
        acceptRanges := some (str "bytes"), contentLength := some (str "10"),
        textBody := some (str "#EXTM3U"), hasBody := true } }

/-- Concrete ranged segment request with an upstream 206, for the C7
witness. -/
def c7SegmentEnv : M3u8Env :=
  { req :=
      { urlParam := some (str "https://cdn.example/a/seg-001.ts"),
        refParam := none, rangeHeader := some (str "bytes=0-1023") },
    cacheEnabled := true, cacheRow := none, nowMs := 0,
    fetched := FetchOutcome.ok
      { status := 206, contentType := some (str "video/mp2t"),
        contentRange := some (str "bytes 0-1023/4096"),
        acceptRanges := some (str "bytes"), contentLength := some (str "1024"),
        textBody := none, hasBody := true } }

/-- C7 counterexample: a ranged request for a playlist URL whose upstream
answers 206 is answered with status 200 and no Content-Range header (the
playlist branch rewrites the partial text and replies 200), so the claim's
unconditional 206 propagation fails. -/
theorem c7_counterexample :
    (m3u8GET c7PlaylistEnv).resp.status = 200 ∧ (200 : Nat) ≠ 206 ∧
      headerLookup (str "Content-Range") (m3u8GET c7PlaylistEnv).resp.headers = none := by
  refine ⟨by decide, by decide, by decide⟩

/-- C7 amended: a request carrying a Range header never reads or writes
the playlist cache (the operation log is empty, so the cache state is
unchanged), the Range header is forwarded verbatim on the upstream
request, and for non-playlist (binary) targets an upstream 206 is answered
with status 206 and the upstream Content-Range propagated unchanged; for
playlist targets the route instead rewrites the body and answers 200. -/
theorem range_requests_bypass_cache (env : M3u8Env) (r : Str)
    (hr : env.req.rangeHeader = some r) :
    (m3u8GET env).cacheOps = [] ∧
      (∀ sr, (m3u8GET env).sent = some sr →
        headerLookup (str "Range") sr.headers = some r) ∧
      (∀ (s : Str) (tgt : JsUrl) (u : UpstreamResp),
        env.req.urlParam = some s → parseAbsUrl s = some tgt →
        isBlockedHost tgt.host = false →
        ((extOf tgt.path = some (str "m3u8") ∨ extOf tgt.path = some (str "m3u")) → False) →
        env.fetched = FetchOutcome.ok u → u.status = 206 → u.hasBody = true →
        (m3u8GET env).resp.status = 206 ∧
          headerLookup (str "Content-Range") (m3u8GET env).resp.headers =
            u.contentRange) := by
  refine ⟨(m3u8GET_range_bypass env r hr).1, (m3u8GET_range_bypass env r hr).2, ?_⟩
  intro s tgt u hurl hp hb hnp hf hs hbody
  exact m3u8GET_binary_206 env r s tgt u hr hurl hp hb hnp hf hs hbody

/-- C7 witness: the amended statement applied to a concrete ranged segment
request with an upstream 206. -/
theorem range_requests_bypass_cache_witness :
    (m3u8GET c7SegmentEnv).cacheOps = [] ∧
      (m3u8GET c7SegmentEnv).resp.status = 206 ∧
      headerLookup (str "Content-Range") (m3u8GET c7SegmentEnv).resp.headers =
        some (str "bytes 0-1023/4096") := by
  have h := range_requests_bypass_cache c7SegmentEnv (str "bytes=0-1023") rfl
  have h206 := h.2.2 (str "https://cdn.example/a/seg-001.ts")
    ⟨ str "https", str "cdn.example", str "/a/seg-001.ts", []⟩
    { status := 206, contentType := some (str "video/mp2t"),
      contentRange := some (str "bytes 0-1023/4096"),
      acceptRanges := some (str "bytes"), contentLength := some (str "1024"),
      textBody := none, hasBody := true }
    rfl (by decide) (by decide) (by decide) rfl rfl rfl
  exact ⟨h.1, h206.1, h206.2⟩

end Kitsune
